import Mathlib

/-!
# zkits-logger: the JSON formatter and the log dispatch filter

A shallow embedding of `json_formatter.go` (the constructor `NewJSONFormatter`,
the pooled `jsonFormatterObject`, and both serialisation paths of
`jsonFormatter.Format`) together with the part of `encoding/json` that the
formatter relies on: struct members are written in declaration order with
`omitempty` members left out, map members are written in sorted key order.

Go maps are association lists; a `map[string]string` argument is the list of
its entries in the order the `range` loop visits them.
-/

namespace ZkitsLogger

/-! ## Go maps -/

/-- A Go `map[string]α`, as an association list. -/
abbrev GoMap (α : Type) := List (String × α)

/-- The index expression `m[k]` on a `map[string]string`: the stored value, or
the zero value `""` when the key is absent. -/
def mapGet (m : GoMap String) (k : String) : String :=
  (m.lookup k).getD ""

/-- The assignment `m[k] = v`: overwrite the entry when the key is present, add
one otherwise. -/
def mapSet {α : Type} : GoMap α → String → α → GoMap α
  | [], k, v => [(k, v)]
  | (k0, v0) :: m, k, v => if k0 = k then (k0, v) :: m else (k0, v0) :: mapSet m k v

/-! ## Levels and entities -/

/-- Modelled from the spec: the `Level` type is declared outside the files at
hand; the spec gives seven levels ordered
`Trace < Debug < Info < Warn < Error < Fatal < Panic`. -/
inductive Level where
  | Trace | Debug | Info | Warn | Error | Fatal | Panic
  deriving DecidableEq, Repr

/-- Modelled from the spec: the integer rank of a level, `Trace` lowest. -/
def Level.rank : Level → Nat
  | .Trace => 0 | .Debug => 1 | .Info => 2 | .Warn => 3
  | .Error => 4 | .Fatal => 5 | .Panic => 6

/-- Modelled from the spec: the canonical name of a level (`Level.String`), the
lower-case names that the default JSON shape shows (`"level":"info"`). -/
def Level.String : Level → String
  | .Trace => "trace" | .Debug => "debug" | .Info => "info" | .Warn => "warn"
  | .Error => "error" | .Fatal => "fatal" | .Panic => "panic"

/-- A value as `encoding/json` sees it. `object` lists its members in the order
they are written. `unsupported` is a value whose marshalling fails, such as
`testErrorJSONMarshaler` of the tests. -/
inductive JSON where
  | null
  | bool (b : Bool)
  | number (n : Int)
  | string (s : String)
  | array (items : List JSON)
  | object (members : List (String × JSON))
  | unsupported (msg : String)

/-- The log entity, through the six accessors that `Format` calls: `Name()`,
`Level()`, `Message()`, `TimeString()`, `Fields()` and `Caller()`. -/
structure Entity where
  name : String
  level : Level
  message : String
  timeString : String
  fields : GoMap JSON
  caller : String

/-! ## The constructor -/

/-- The error of `NewJSONFormatter`; its message is
`invalid json formatter key %q` applied to the key. -/
inductive KeyError where
  | invalidKey (key : String)
  deriving DecidableEq, Repr

/-- The built-in json formatter (`structureFlag` is the field `structure`). -/
structure jsonFormatter where
  name : String
  time : String
  level : String
  message : String
  fields : String
  caller : String
  full : Bool
  structureFlag : Bool
  deriving DecidableEq, Repr

/-- The map `m` that `NewJSONFormatter` starts from. -/
def defaultKeys : GoMap String :=
  [("name", "name"), ("time", "time"), ("level", "level"), ("message", "message"),
   ("fields", "fields"), ("caller", "caller")]

/-- The six logical key names. -/
def logicalKeys : List String :=
  ["name", "time", "level", "message", "fields", "caller"]

/-- The `for key, value := range keys` loop of `NewJSONFormatter`, over the
entries in visiting order, carrying `m` and `structure`. -/
def rangeKeys : List (String × String) → GoMap String → Bool →
    Except KeyError (GoMap String × Bool)
  | [], m, s => .ok (m, s)
  | (key, value) :: rest, m, s =>
    if mapGet m key = "" then
      .error (.invalidKey key)
    else if value ≠ "" ∧ mapGet m key ≠ value then
      rangeKeys rest (mapSet m key value) false
    else
      rangeKeys rest m s

/-- The constructor `NewJSONFormatter(keys, full)`: the pair (formatter, error) it returns,
`none` standing for `nil`. -/
def NewJSONFormatter (keys : GoMap String) (full : Bool) :
    Option jsonFormatter × Option KeyError :=
  let m := defaultKeys
  let r := if keys.length > 0 then rangeKeys keys m true else .ok (m, true)
  match r with
  | .error err => (none, some err)
  | .ok (m, s) =>
    (some { name := mapGet m "name", time := mapGet m "time", level := mapGet m "level",
            message := mapGet m "message", fields := mapGet m "fields",
            caller := mapGet m "caller", full := full, structureFlag := s }, none)

/-- The constructor `MustNewJSONFormatter`: `none` stands for the panic. -/
def MustNewJSONFormatter (keys : GoMap String) (full : Bool) : Option jsonFormatter :=
  match NewJSONFormatter keys full with
  | (some f, none) => some f
  | _ => none

/-- The default json formatter, `MustNewJSONFormatter(nil, false)`. -/
def defaultJSONFormatter : Option jsonFormatter := MustNewJSONFormatter [] false

/-! ## The part of `encoding/json` that the formatter uses -/

/-- A hexadecimal digit, lower case. -/
def hexDigit (n : Nat) : Char :=
  if n < 10 then Char.ofNat (48 + n) else Char.ofNat (87 + n)

/-- How the encoder writes one character of a string: the short escapes
(backspace and form feed among them, as `encoding/json` writes them since
Go 1.22), the `\u00XX` form for the other control characters and for `<`, `>`,
`&` (the encoder escapes HTML by default), and the two line separators. -/
def escapeChar (c : Char) : String :=
  if c = '"' then "\\\""
  else if c = '\\' then "\\\\"
  else if c.toNat = 8 then "\\b"
  else if c.toNat = 12 then "\\f"
  else if c = '\n' then "\\n"
  else if c = '\r' then "\\r"
  else if c = '\t' then "\\t"
  else if c.toNat < 32 ∨ c = '<' ∨ c = '>' ∨ c = '&' then
    String.mk ['\\', 'u', '0', '0', hexDigit (c.toNat / 16), hexDigit (c.toNat % 16)]
  else if c.toNat = 0x2028 then "\\u2028"
  else if c.toNat = 0x2029 then "\\u2029"
  else String.singleton c

/-- A string as a JSON string literal. -/
def encodeString (s : String) : String :=
  "\"" ++ String.join (s.data.map escapeChar) ++ "\""

mutual
/-- The text of a value, or the error of the first member that cannot be
marshalled. -/
def JSON.encode : JSON → Except String String
  | .null => .ok "null"
  | .bool b => .ok (if b then "true" else "false")
  | .number n => .ok (toString n)
  | .string s => .ok (encodeString s)
  | .array items => (encodeItems items).map (fun ss => "[" ++ ",".intercalate ss ++ "]")
  | .object members => (encodeMembers members).map (fun ss => "\x7b" ++ ",".intercalate ss ++ "\x7d")
  | .unsupported msg => .error msg
/-- The texts of the items of an array. -/
def encodeItems : List JSON → Except String (List String)
  | [] => .ok []
  | x :: xs =>
    match x.encode with
    | .error msg => .error msg
    | .ok s => (encodeItems xs).map (fun ss => s :: ss)
/-- The texts `"key":value` of the members of an object. -/
def encodeMembers : List (String × JSON) → Except String (List String)
  | [] => .ok []
  | (k, v) :: ms =>
    match v.encode with
    | .error msg => .error msg
    | .ok s => (encodeMembers ms).map (fun ss => (encodeString k ++ ":" ++ s) :: ss)
end

/-- The call `json.NewEncoder(b).Encode(v)` on the buffer contents `b`: on success the
text and a line break are appended; on failure the buffer is left as it was and
the error is returned. -/
def Encode (b : String) (v : JSON) : String × Option String :=
  match v.encode with
  | .ok s => (b ++ s ++ "\n", none)
  | .error msg => (b, some msg)

/-- Lexicographic comparison of two keys, character by character; on valid
UTF-8 it is the byte-wise order by which the encoder sorts map keys. -/
def keyLT : List Char → List Char → Bool
  | [], [] => false
  | [], _ :: _ => true
  | _ :: _, [] => false
  | a :: as, b :: bs => decide (a.toNat < b.toNat) || (a.toNat == b.toNat && keyLT as bs)

/-- Insert one member into a list of members sorted by key. -/
def insertMember (p : String × JSON) : List (String × JSON) → List (String × JSON)
  | [] => [p]
  | q :: qs => if keyLT q.1.data p.1.data then q :: insertMember p qs else p :: q :: qs

/-- The members of a map in sorted key order. -/
def sortMembers : List (String × JSON) → List (String × JSON)
  | [] => []
  | p :: ps => insertMember p (sortMembers ps)

/-- How the encoder sees a `map[string]interface{}`: an object whose members are
sorted by key. -/
def mapToJSON (kv : GoMap JSON) : JSON :=
  .object (sortMembers kv)

/-! ## The fixed-shape object and its pool -/

/-- Special built-in structure for json serialization; the members are declared
in this order. `Caller` is a `*string` and `Fields` an `interface{}`, `none`
standing for `nil`. -/
structure jsonFormatterObject where
  Caller : Option String
  Fields : Option JSON
  Level : String
  Message : String
  Name : String
  Time : String

/-- How the encoder sees a `jsonFormatterObject`: the members in declaration
order under their tag names, `caller` and `fields` left out when nil
(`omitempty`). -/
def jsonFormatterObject.toJSON (o : jsonFormatterObject) : JSON :=
  .object
    ((match o.Caller with
      | some c => [("caller", JSON.string c)]
      | none => []) ++
     (match o.Fields with
      | some v => [("fields", v)]
      | none => []) ++
     [("level", .string o.Level), ("message", .string o.Message),
      ("name", .string o.Name), ("time", .string o.Time)])

/-- The objects that `jsonFormatterObjectPool` holds. -/
abbrev Pool := List jsonFormatterObject

/-- The pool's `New`: `new(jsonFormatterObject)`, every field at its zero value. -/
def newJSONFormatterObject : jsonFormatterObject :=
  { Caller := none, Fields := none, Level := "", Message := "", Name := "", Time := "" }

/-- The function `getJSONFormatterObject`: the pool hands out one of its objects (`pick` says
which) and no longer holds it, or a new one when it has none to give. -/
def getJSONFormatterObject (pool : Pool) (pick : Nat) : jsonFormatterObject × Pool :=
  match pool.get? pick with
  | some o => (o, pool.eraseIdx pick)
  | none => (newJSONFormatterObject, pool)

/-- The function `putJSONFormatterObject`: the six assignments, then `Put`. -/
def putJSONFormatterObject (o : jsonFormatterObject) (pool : Pool) : Pool :=
  let o := { o with Caller := none }
  let o := { o with Fields := none }
  let o := { o with Level := "" }
  let o := { o with Message := "" }
  let o := { o with Name := "" }
  let o := { o with Time := "" }
  o :: pool

/-! ## Format -/

/-- The assignments to the pooled object in the structure path of `Format`.
`std` is `internal.StandardiseFieldsForJSONEncoder`, which is declared outside
the files at hand. -/
def fillObject (std : GoMap JSON → JSON) (f : jsonFormatter) (e : Entity)
    (o : jsonFormatterObject) : jsonFormatterObject :=
  let o := { o with Level := e.level.String }
  let o := { o with Message := e.message }
  let o := { o with Name := e.name }
  let o := { o with Time := e.timeString }
  let o :=
    if e.fields.length > 0 then { o with Fields := some (std e.fields) }
    else if f.full then { o with Fields := some (JSON.object []) }
    else o
  if f.full || e.caller != "" then { o with Caller := some e.caller } else o

/-- The map `kv` that the generic path of `Format` builds: the four keys of the
literal in the order written, then the two conditional assignments. -/
def buildMap (std : GoMap JSON → JSON) (f : jsonFormatter) (e : Entity) : GoMap JSON :=
  let kv : GoMap JSON := []
  let kv := mapSet kv f.name (.string e.name)
  let kv := mapSet kv f.time (.string e.timeString)
  let kv := mapSet kv f.level (.string e.level.String)
  let kv := mapSet kv f.message (.string e.message)
  let kv :=
    if e.fields.length > 0 then mapSet kv f.fields (std e.fields)
    else if f.full then mapSet kv f.fields (JSON.object [])
    else kv
  if f.full || e.caller != "" then mapSet kv f.caller (.string e.caller) else kv

/-- What a call of `Format` leaves behind: the buffer, the returned error and
the pool. -/
structure FormatResult where
  buffer : String
  err : Option String
  pool : Pool

/-- The method `(f *jsonFormatter) Format(e, b)`, run on the buffer contents `b` and the
pool `pool`; the deferred `putJSONFormatterObject` runs after the encoding,
whether it succeeded or not. -/
def jsonFormatter.Format (std : GoMap JSON → JSON) (f : jsonFormatter) (e : Entity)
    (b : String) (pool : Pool) (pick : Nat) : FormatResult :=
  if f.structureFlag then
    let got := getJSONFormatterObject pool pick
    let o := fillObject std f e got.1
    let r := Encode b o.toJSON
    { buffer := r.1, err := r.2, pool := putJSONFormatterObject o got.2 }
  else
    let kv := buildMap std f e
    let r := Encode b (mapToJSON kv)
    { buffer := r.1, err := r.2, pool := pool }

/-- The value that `Format` hands to the encoder when the pooled object it got
has every field at its zero value. -/
def jsonFormatter.emitted (std : GoMap JSON → JSON) (f : jsonFormatter) (e : Entity) : JSON :=
  if f.structureFlag then (fillObject std f e newJSONFormatterObject).toJSON
  else mapToJSON (buildMap std f e)

/-- The members of an object, none for any other value. -/
def JSON.members : JSON → List (String × JSON)
  | .object ms => ms
  | _ => []

/-- The keys of an object in the order written. -/
def JSON.keys (v : JSON) : List String :=
  v.members.map Prod.fst

/-- Every object in the pool has its six fields at their zero values. -/
def PoolClean (pool : Pool) : Prop :=
  ∀ o ∈ pool, o = newJSONFormatterObject

/-- A stand-in for `StandardiseFieldsForJSONEncoder` in concrete evaluations:
the fields as an object with sorted keys. -/
def stdSample (fields : GoMap JSON) : JSON :=
  mapToJSON fields

/-- A sample entity: no fields, no caller. -/
def sampleEntity : Entity :=
  { name := "test", level := .Info, message := "foo", timeString := "2021-03-04T05:06:07Z",
    fields := [], caller := "" }

/-- A sample entity with one field and no caller. -/
def sampleEntityWithFields : Entity :=
  { sampleEntity with fields := [("k", .string "v")] }

/-- The formatter with the default names. -/
def defaultNamed (full structureFlag : Bool) : jsonFormatter :=
  { name := "name", time := "time", level := "level", message := "message",
    fields := "fields", caller := "caller", full := full, structureFlag := structureFlag }

/-- The loop invariant on `m`: exactly the six logical keys have a non-empty
value. -/
def KeysOK (m : GoMap String) : Prop :=
  ∀ k, mapGet m k ≠ "" ↔ k ∈ logicalKeys


/-- The members that either path of `Format` writes under the default names, in
the order written: `caller` and `fields` when they are emitted, then `level`,
`message`, `name`, `time`. -/
def defaultMembers (std : GoMap JSON → JSON) (e : Entity) (full : Bool) :
    List (String × JSON) :=
  (if full || e.caller != "" then [("caller", JSON.string e.caller)] else []) ++
  (if e.fields.length > 0 then [("fields", std e.fields)]
   else if full then [("fields", JSON.object [])] else []) ++
  [("level", .string e.level.String), ("message", .string e.message),
   ("name", .string e.name), ("time", .string e.timeString)]

/-- The output name that a key map asks for under the logical key `k`: the
supplied value when there is an entry with a non-empty value, the default name
otherwise. -/
def outputName (keys : GoMap String) (k : String) : String :=
  match keys.lookup k with
  | some v => if v = "" then mapGet defaultKeys k else v
  | none => mapGet defaultKeys k

/-- The bytes that `TestLogger_Log` compares the logger's output with: the
encoding, into an empty buffer, of the map literal with the five keys `name`,
`time`, `level`, `message` and `fields`, the last one an empty map. -/
def expectedByTestLoggerLog (now : String) (level : Level) (message : String) : String :=
  let kv : GoMap JSON := []
  let kv := mapSet kv "name" (.string "test")
  let kv := mapSet kv "time" (.string now)
  let kv := mapSet kv "level" (.string level.String)
  let kv := mapSet kv "message" (.string message)
  let kv := mapSet kv "fields" (mapToJSON [])
  (Encode "" (mapToJSON kv)).1

/-- The entity of a record logged through `New("test")` in `TestLogger_Log`: no
fields and no caller. -/
def testEntity (now : String) (level : Level) (message : String) : Entity :=
  { name := "test", level := level, message := message, timeString := now,
    fields := [], caller := "" }

/-- The output name that a formatter holds for a logical key. -/
def jsonFormatter.outputKey (f : jsonFormatter) (k : String) : String :=
  if k = "name" then f.name
  else if k = "time" then f.time
  else if k = "level" then f.level
  else if k = "message" then f.message
  else if k = "fields" then f.fields
  else if k = "caller" then f.caller
  else ""

/-! ## A sequence of `Format` calls on the shared pool -/

/-- The pool after a sequence of `Format` calls, each with its formatter, its
entity, its buffer contents and the pool's choice of object. -/
def runFormats (std : GoMap JSON → JSON) :
    List (jsonFormatter × Entity × String × Nat) → Pool → Pool
  | [], pool => pool
  | (f, e, b, pick) :: rest, pool => runFormats std rest (f.Format std e b pool pick).pool

/-- A sample entity whose fields cannot be encoded. -/
def sampleEntityUnsupported : Entity :=
  { sampleEntity with fields := [("k", .unsupported "boom")] }

/-! ## The dispatcher -/

/-- Modelled from the spec: a hook registry entry, the levels it is registered
for and its callback (named by a number); the dispatcher's source is not among
the files at hand. -/
structure Hook where
  levels : List Level
  callback : Nat

/-- Modelled from the spec: the terminal actions of the two highest levels. -/
inductive TerminalAction where
  | exit
  | abort (message : String)
  deriving DecidableEq, Repr

/-- Modelled from the spec: the dispatcher with what a log call can change: the
minimum level, the formatter (a capability from an entity to bytes or an
error), the registered hooks, the structured fields, the bytes written to the
output sink so far, the hook invocations so far (callback, level and message of
the summary) and the terminal actions triggered so far. -/
structure Logger where
  name : String
  level : Level
  formatter : Entity → String × Option String
  hooks : List Hook
  fields : GoMap JSON
  sink : String
  hookCalls : List (Nat × Level × String)
  terminal : List TerminalAction

/-- Modelled from the spec: the formatter capability of the default JSON
formatter, on a buffer of its own. -/
def defaultFormat (std : GoMap JSON → JSON) (e : Entity) : String × Option String :=
  (((defaultNamed false true).Format std e "" [] 0).buffer,
   ((defaultNamed false true).Format std e "" [] 0).err)

/-- Modelled from the spec: `New(name)`, a logger with the lowest threshold (as
`TestLogger_Level` expects), the default JSON formatter, no hooks and no
fields, that has written nothing. -/
def New (std : GoMap JSON → JSON) (name : String) : Logger :=
  { name := name, level := .Trace, formatter := defaultFormat std, hooks := [], fields := [],
    sink := "", hookCalls := [], terminal := [] }

/-- Modelled from the spec: `SetLevel`. -/
def Logger.SetLevel (lg : Logger) (level : Level) : Logger :=
  { lg with level := level }

/-- Modelled from the spec: `AddHookFunc(levels, callback)`; entries are kept in
registration order. -/
def Logger.AddHookFunc (lg : Logger) (levels : List Level) (callback : Nat) : Logger :=
  { lg with hooks := lg.hooks ++ [{ levels := levels, callback := callback }] }

/-- Modelled from the spec: the entity that a log call builds. -/
def Logger.entity (lg : Logger) (level : Level) (message now caller : String) : Entity :=
  { name := lg.name, level := level, message := message, timeString := now,
    fields := lg.fields, caller := caller }

/-- Modelled from the spec: one log call at `level` with `message`, at the time
string `now` and with the resolved caller `caller` (empty when none is
captured). A level strictly below the threshold is dropped with no effect.
Otherwise the entity is built and formatted; a formatter error is returned and
nothing is written; else the bytes are written to the sink, then every hook
registered for the level runs in registration order, then the terminal action
of `Fatal` or `Panic` is triggered. -/
def Logger.log (lg : Logger) (level : Level) (message now caller : String) :
    Logger × Option String :=
  if level.rank < lg.level.rank then (lg, none)
  else
    let e := lg.entity level message now caller
    match lg.formatter e with
    | (_, some err) => (lg, some err)
    | (bytes, none) =>
      let lg := { lg with sink := lg.sink ++ bytes }
      let run := (lg.hooks.filter (fun h => decide (level ∈ h.levels))).map
        (fun h => (h.callback, level, message))
      let lg := { lg with hookCalls := lg.hookCalls ++ run }
      let lg :=
        match level with
        | .Fatal => { lg with terminal := lg.terminal ++ [.exit] }
        | .Panic => { lg with terminal := lg.terminal ++ [.abort message] }
        | _ => lg
      (lg, none)

/-! ## The bytes of an object -/

/-- The text of an object whose members have the texts `parts`: the braces
around the comma-separated parts. -/
def objectText (parts : List String) : String :=
  "\x7b" ++ ",".intercalate parts ++ "\x7d"

/-- The text of one member: the key as a string literal, a colon, the text of
the value. -/
def memberText (k vt : String) : String :=
  encodeString k ++ ":" ++ vt

/-- The texts `ts` are those of the members `ms`, one for one and in the same
order, each value having the text that the encoder gives it. -/
def MemberTexts (ms : List (String × JSON)) (ts : List String) : Prop :=
  List.Forall₂ (fun m t => ∃ vt, m.2.encode = .ok vt ∧ t = memberText m.1 vt) ms ts

/-- The member texts of the object under the default names: `caller` when
`full` is set or the caller is non-empty, `fields` with the text `ft` when there
is one, then `level`, `message`, `name`, `time`. -/
def defaultTexts (e : Entity) (full : Bool) (ft : Option String) : List String :=
  (if full = true ∨ e.caller ≠ "" then [memberText "caller" (encodeString e.caller)] else []) ++
  (match ft with
   | some t => [memberText "fields" t]
   | none => []) ++
  [memberText "level" (encodeString e.level.String),
   memberText "message" (encodeString e.message),
   memberText "name" (encodeString e.name),
   memberText "time" (encodeString e.timeString)]

/-! ## Evaluations on concrete inputs -/

example : NewJSONFormatter [] false =
    (some ⟨"name", "time", "level", "message", "fields", "caller", false, true⟩, none) := by
  decide

example : NewJSONFormatter [("name", "n"), ("", "x")] false = (none, some (.invalidKey "")) := by
  decide

example : NewJSONFormatter [("name", "n"), ("time", "")] true =
    (some ⟨"n", "time", "level", "message", "fields", "caller", true, false⟩, none) := by
  decide


example : ((defaultNamed false true).Format stdSample sampleEntityWithFields "" [] 0).buffer =
    "\x7b\"fields\":\x7b\"k\":\"v\"\x7d,\"level\":\"info\",\"message\":\"foo\",\"name\":\"test\",\"time\":\"2021-03-04T05:06:07Z\"\x7d\n" := by
  rfl

example : ((defaultNamed true false).Format stdSample sampleEntity "" [] 0).buffer =
    "\x7b\"caller\":\"\",\"fields\":\x7b\x7d,\"level\":\"info\",\"message\":\"foo\",\"name\":\"test\",\"time\":\"2021-03-04T05:06:07Z\"\x7d\n" := by
  rfl

example : ((defaultNamed true false).emitted stdSample sampleEntity).keys = ["caller", "fields", "level", "message", "name", "time"] := by
  decide

example : ((defaultNamed false true).Format stdSample sampleEntity ""
    [{ newJSONFormatterObject with Caller := some "stale.go:1" }] 0).buffer =
    "\x7b\"caller\":\"stale.go:1\",\"level\":\"info\",\"message\":\"foo\",\"name\":\"test\",\"time\":\"2021-03-04T05:06:07Z\"\x7d\n" := by
  rfl

/-! ## Theorems -/

theorem mapGet_nil (k : String) : mapGet [] k = "" := rfl

theorem mapGet_cons (k0 v0 : String) (m : GoMap String) (k : String) :
    mapGet ((k0, v0) :: m) k = if k = k0 then v0 else mapGet m k := by
  by_cases h : k = k0
  · have hb : (k == k0) = true := by simp [h]
    simp [mapGet, List.lookup, hb, h]
  · have hb : (k == k0) = false := by simp [h]
    simp [mapGet, List.lookup, hb, h]

theorem mapGet_mapSet (m : GoMap String) (k v k2 : String) :
    mapGet (mapSet m k v) k2 = if k2 = k then v else mapGet m k2 := by
  induction m with
  | nil => simp [mapSet, mapGet_cons, mapGet_nil]
  | cons p m ih =>
    obtain ⟨k0, v0⟩ := p
    unfold mapSet
    by_cases h0 : k0 = k
    · subst h0
      by_cases h : k2 = k0 <;> simp [mapGet_cons, h]
    · by_cases h : k2 = k0
      · have h1 : ¬ k2 = k := fun h2 => h0 (h ▸ h2)
        simp [mapGet_cons, h0, h, h1]
      · simp [mapGet_cons, h0, h, ih]

theorem mapGet_defaultKeys (k : String) :
    mapGet defaultKeys k = if k ∈ logicalKeys then k else "" := by
  simp only [defaultKeys, logicalKeys, mapGet_cons, mapGet_nil, List.mem_cons, List.mem_nil_iff, or_false]
  by_cases h1 : k = "name"
  · simp [h1]
  by_cases h2 : k = "time"
  · simp [h2]
  by_cases h3 : k = "level"
  · simp [h3]
  by_cases h4 : k = "message"
  · simp [h4]
  by_cases h5 : k = "fields"
  · simp [h5]
  by_cases h6 : k = "caller"
  · simp [h6]
  simp [h1, h2, h3, h4, h5, h6]

theorem keysOK_defaultKeys : KeysOK defaultKeys := by
  intro k
  rw [mapGet_defaultKeys]
  by_cases h : k ∈ logicalKeys
  · simp only [h, if_true, iff_true]
    intro h0
    rw [h0] at h
    revert h
    decide
  · simp [h]

theorem keysOK_mapSet {m : GoMap String} (hm : KeysOK m) {k v : String}
    (hk : mapGet m k ≠ "") (hv : v ≠ "") : KeysOK (mapSet m k v) := by
  intro k2
  rw [mapGet_mapSet]
  by_cases h : k2 = k
  · subst h
    simp only [if_true]
    exact ⟨fun _ => (hm k2).1 hk, fun _ => hv⟩
  · simp only [h, if_false]
    exact hm k2

theorem rangeKeys_error_iff (keys : List (String × String)) :
    ∀ (m : GoMap String) (s : Bool), KeysOK m →
      ((∃ err, rangeKeys keys m s = .error err) ↔ ∃ kv ∈ keys, kv.1 ∉ logicalKeys) := by
  induction keys with
  | nil => intro m s _; simp [rangeKeys]
  | cons p rest ih =>
    intro m s hm
    obtain ⟨key, value⟩ := p
    unfold rangeKeys
    by_cases h1 : mapGet m key = ""
    · have hk : key ∉ logicalKeys := fun hk => (hm key).2 hk h1
      simp only [h1, if_true]
      exact ⟨fun _ => ⟨(key, value), List.mem_cons_self _ _, hk⟩, fun _ => ⟨_, rfl⟩⟩
    · have hk : key ∈ logicalKeys := (hm key).1 h1
      simp only [h1, if_false]
      by_cases h2 : value ≠ "" ∧ mapGet m key ≠ value
      · rw [if_pos h2, ih _ _ (keysOK_mapSet hm h1 h2.1)]
        simp [hk]
      · rw [if_neg h2, ih _ _ hm]
        simp [hk]

/-- C1. `NewJSONFormatter` returns an error together with a nil formatter exactly
when some key of the map is not one of the six logical keys, and a formatter
together with a nil error exactly when every key is one of the six, whatever the
values; the empty string is not one of the six. -/
theorem NewJSONFormatter_error_iff_unknown_key (keys : GoMap String) (full : Bool) :
    ((∃ err, NewJSONFormatter keys full = (none, some err)) ↔
      ∃ kv ∈ keys, kv.1 ∉ logicalKeys) ∧
    ((∃ f, NewJSONFormatter keys full = (some f, none)) ↔
      ∀ kv ∈ keys, kv.1 ∈ logicalKeys) ∧
    "" ∉ logicalKeys := by
  have hloop := rangeKeys_error_iff keys defaultKeys true keysOK_defaultKeys
  refine ⟨?_, ?_, by decide⟩
  · cases keys with
    | nil => simp [NewJSONFormatter]
    | cons p rest =>
      rw [← hloop]
      simp only [NewJSONFormatter, List.length_cons, gt_iff_lt, Nat.zero_lt_succ, if_true]
      cases h : rangeKeys (p :: rest) defaultKeys true with
      | error err => simp
      | ok r => simp
  · cases keys with
    | nil => simp [NewJSONFormatter]
    | cons p rest =>
      have hneg : (∀ kv ∈ p :: rest, kv.1 ∈ logicalKeys) ↔
          ¬ ∃ kv ∈ p :: rest, kv.1 ∉ logicalKeys := by
        simp
      rw [hneg, ← hloop]
      simp only [NewJSONFormatter, List.length_cons, gt_iff_lt, Nat.zero_lt_succ, if_true]
      cases h : rangeKeys (p :: rest) defaultKeys true with
      | error err => simp
      | ok r => simp

theorem structure_path_default (std : GoMap JSON → JSON) (e : Entity) (full : Bool) :
    (fillObject std (defaultNamed full true) e newJSONFormatterObject).toJSON =
      .object (defaultMembers std e full) := by
  by_cases hf : e.fields.length > 0 <;> by_cases hc : e.caller = "" <;> cases full <;>
    simp [fillObject, jsonFormatterObject.toJSON, defaultMembers, defaultNamed,
      newJSONFormatterObject, hf, hc]

theorem map_path_default (std : GoMap JSON → JSON) (e : Entity) (full : Bool) :
    mapToJSON (buildMap std (defaultNamed full false) e) =
      .object (defaultMembers std e full) := by
  by_cases hf : e.fields.length > 0 <;> by_cases hc : e.caller = "" <;> cases full <;>
    simp +decide [buildMap, mapToJSON, defaultMembers, defaultNamed, mapSet, sortMembers,
      insertMember, keyLT, hf, hc]

theorem emitted_defaultNamed (std : GoMap JSON → JSON) (e : Entity) (full sf : Bool) :
    (defaultNamed full sf).emitted std e = .object (defaultMembers std e full) := by
  cases sf
  · simpa [jsonFormatter.emitted, defaultNamed] using map_path_default std e full
  · simpa [jsonFormatter.emitted, defaultNamed] using structure_path_default std e full

theorem poolClean_nil : PoolClean [] := by
  intro o h
  cases h

theorem poolClean_cons {o : jsonFormatterObject} {pool : Pool}
    (ho : o = newJSONFormatterObject) (hpool : PoolClean pool) : PoolClean (o :: pool) := by
  intro x hx
  rcases List.mem_cons.1 hx with h | h
  · rw [h, ho]
  · exact hpool x h

theorem putJSONFormatterObject_eq (o : jsonFormatterObject) (pool : Pool) :
    putJSONFormatterObject o pool = newJSONFormatterObject :: pool := rfl

theorem getJSONFormatterObject_clean {pool : Pool} (hpool : PoolClean pool) (pick : Nat) :
    (getJSONFormatterObject pool pick).1 = newJSONFormatterObject ∧
      PoolClean (getJSONFormatterObject pool pick).2 := by
  unfold getJSONFormatterObject
  cases h : pool.get? pick with
  | none => exact ⟨rfl, hpool⟩
  | some o =>
    refine ⟨hpool o (List.get?_mem h), ?_⟩
    intro x hx
    exact hpool x (List.mem_of_mem_eraseIdx hx)

theorem Format_of_clean_pool (std : GoMap JSON → JSON) (f : jsonFormatter) (e : Entity)
    (b : String) {pool : Pool} (hpool : PoolClean pool) (pick : Nat) :
    ((f.Format std e b pool pick).buffer, (f.Format std e b pool pick).err) =
      Encode b (f.emitted std e) := by
  unfold jsonFormatter.Format jsonFormatter.emitted
  cases hs : f.structureFlag
  · simp
  · simp [(getJSONFormatterObject_clean hpool pick).1]

theorem Format_pool_clean (std : GoMap JSON → JSON) (f : jsonFormatter) (e : Entity)
    (b : String) {pool : Pool} (hpool : PoolClean pool) (pick : Nat) :
    PoolClean (f.Format std e b pool pick).pool := by
  unfold jsonFormatter.Format
  cases hs : f.structureFlag
  · simpa using hpool
  · simp only [if_true, putJSONFormatterObject_eq]
    exact poolClean_cons rfl (getJSONFormatterObject_clean hpool pick).2

theorem NewJSONFormatter_nil (full : Bool) :
    NewJSONFormatter [] full = (some (defaultNamed full true), none) := by
  cases full <;> rfl

theorem rangeKeys_defaults (keys : List (String × String))
    (h : ∀ kv ∈ keys, kv.1 ∈ logicalKeys ∧ (kv.2 = "" ∨ kv.2 = kv.1)) (s : Bool) :
    rangeKeys keys defaultKeys s = .ok (defaultKeys, s) := by
  induction keys with
  | nil => rfl
  | cons p rest ih =>
    obtain ⟨key, value⟩ := p
    have hp := h (key, value) (List.mem_cons_self _ _)
    have hget : mapGet defaultKeys key = key := by
      rw [mapGet_defaultKeys, if_pos hp.1]
    have hne : mapGet defaultKeys key ≠ "" := (keysOK_defaultKeys key).2 hp.1
    unfold rangeKeys
    rw [if_neg hne]
    have hno : ¬ (value ≠ "" ∧ mapGet defaultKeys key ≠ value) := by
      rw [hget]
      rintro ⟨h1, h2⟩
      rcases hp.2 with h3 | h3
      · exact h1 h3
      · exact h2 h3.symm
    rw [if_neg hno]
    exact ih (fun kv hkv => h kv (List.mem_cons_of_mem _ hkv))

theorem NewJSONFormatter_defaults (keys : GoMap String) (full : Bool)
    (h : ∀ kv ∈ keys, kv.1 ∈ logicalKeys ∧ (kv.2 = "" ∨ kv.2 = kv.1)) :
    NewJSONFormatter keys full = (some (defaultNamed full true), none) := by
  cases keys with
  | nil => exact NewJSONFormatter_nil full
  | cons p rest =>
    simp only [NewJSONFormatter, List.length_cons, gt_iff_lt, Nat.zero_lt_succ, if_true]
    rw [rangeKeys_defaults _ h]
    cases full <;> rfl

theorem defaultMembers_keys (std : GoMap JSON → JSON) (e : Entity) (full : Bool) :
    (defaultMembers std e full).map Prod.fst =
      (if full || e.caller != "" then ["caller"] else []) ++
      (if e.fields.length > 0 ∨ full = true then ["fields"] else []) ++
      ["level", "message", "name", "time"] := by
  by_cases hf : e.fields.length > 0 <;> by_cases hc : e.caller = "" <;> cases full <;>
    simp [defaultMembers, hf, hc]

theorem fields_length_pos_iff (e : Entity) : e.fields.length > 0 ↔ e.fields ≠ [] := by
  cases e.fields <;> simp

/-- C3. The formatter built from no key map and the formatter built from the
map that sends each logical key to its own default name (its six entries
visited in any order) are the same formatter, and on the same entity and buffer
`Format` gives both the same bytes and the same error. -/
theorem Format_explicit_defaults_same_output (keys : GoMap String) (full : Bool)
    (hkeys : keys.Perm defaultKeys) :
    ∃ f g, NewJSONFormatter [] full = (some f, none) ∧
      NewJSONFormatter keys full = (some g, none) ∧ f = g ∧
      ∀ (std : GoMap JSON → JSON) (e : Entity) (b : String) (pool1 pool2 : Pool)
        (pick1 pick2 : Nat), PoolClean pool1 → PoolClean pool2 →
        (f.Format std e b pool1 pick1).buffer = (g.Format std e b pool2 pick2).buffer ∧
        (f.Format std e b pool1 pick1).err = (g.Format std e b pool2 pick2).err := by
  have hall : ∀ kv ∈ keys, kv.1 ∈ logicalKeys ∧ (kv.2 = "" ∨ kv.2 = kv.1) := by
    intro kv hkv
    have hmem : kv ∈ defaultKeys := hkeys.mem_iff.1 hkv
    simp only [defaultKeys, List.mem_cons, List.mem_nil_iff, or_false] at hmem
    rcases hmem with h | h | h | h | h | h <;> subst h <;> simp [logicalKeys]
  refine ⟨defaultNamed full true, defaultNamed full true, NewJSONFormatter_nil full,
    NewJSONFormatter_defaults keys full hall, rfl, ?_⟩
  intro std e b pool1 pool2 pick1 pick2 h1 h2
  have e1 := Format_of_clean_pool std (defaultNamed full true) e b h1 pick1
  have e2 := Format_of_clean_pool std (defaultNamed full true) e b h2 pick2
  rw [← e2] at e1
  exact ⟨congrArg Prod.fst e1, congrArg Prod.snd e1⟩

theorem Format_explicit_defaults_same_output_witness :
    ∃ f g, NewJSONFormatter [] true = (some f, none) ∧
      NewJSONFormatter defaultKeys.reverse true = (some g, none) ∧ f = g ∧
      ∀ (std : GoMap JSON → JSON) (e : Entity) (b : String) (pool1 pool2 : Pool)
        (pick1 pick2 : Nat), PoolClean pool1 → PoolClean pool2 →
        (f.Format std e b pool1 pick1).buffer = (g.Format std e b pool2 pick2).buffer ∧
        (f.Format std e b pool1 pick1).err = (g.Format std e b pool2 pick2).err :=
  Format_explicit_defaults_same_output defaultKeys.reverse true (List.reverse_perm defaultKeys)

/-- C4. With the default key names the structure path and the map path of
`Format` hand the encoder the same object (same keys, same order, same values),
so they leave the same bytes in the buffer and return the same error. -/
theorem Format_paths_agree_on_default_names (std : GoMap JSON → JSON) (e : Entity)
    (full : Bool) (b : String) (pool : Pool) (pick : Nat) (hpool : PoolClean pool) :
    (fillObject std (defaultNamed full true) e (getJSONFormatterObject pool pick).1).toJSON =
      mapToJSON (buildMap std (defaultNamed full false) e) ∧
    ((defaultNamed full true).Format std e b pool pick).buffer =
      ((defaultNamed full false).Format std e b pool pick).buffer ∧
    ((defaultNamed full true).Format std e b pool pick).err =
      ((defaultNamed full false).Format std e b pool pick).err := by
  have e1 := Format_of_clean_pool std (defaultNamed full true) e b hpool pick
  have e2 := Format_of_clean_pool std (defaultNamed full false) e b hpool pick
  rw [emitted_defaultNamed] at e1 e2
  rw [← e2] at e1
  refine ⟨?_, congrArg Prod.fst e1, congrArg Prod.snd e1⟩
  rw [(getJSONFormatterObject_clean hpool pick).1, structure_path_default, map_path_default]

theorem Format_paths_agree_on_default_names_witness :
    PoolClean [newJSONFormatterObject] ∧
    ((defaultNamed true true).Format stdSample sampleEntityWithFields "" [newJSONFormatterObject]
        0).buffer =
      ((defaultNamed true false).Format stdSample sampleEntityWithFields ""
        [newJSONFormatterObject] 0).buffer :=
  ⟨poolClean_cons rfl poolClean_nil,
   (Format_paths_agree_on_default_names stdSample sampleEntityWithFields true ""
      [newJSONFormatterObject] 0 (poolClean_cons rfl poolClean_nil)).2.1⟩

theorem lookup_cons_eq (k0 v0 : String) (m : GoMap String) (k : String) :
    List.lookup k ((k0, v0) :: m) = if k = k0 then some v0 else List.lookup k m := by
  by_cases h : k = k0
  · have hb : (k == k0) = true := by simp [h]
    simp [List.lookup, hb, h]
  · have hb : (k == k0) = false := by simp [h]
    simp [List.lookup, hb, h]

theorem lookup_eq_none_of_not_mem (m : GoMap String) (k : String)
    (h : k ∉ m.map Prod.fst) : List.lookup k m = none := by
  induction m with
  | nil => rfl
  | cons p m ih =>
    obtain ⟨k0, v0⟩ := p
    simp only [List.map_cons, List.mem_cons, not_or] at h
    rw [lookup_cons_eq, if_neg h.1]
    exact ih h.2

theorem rangeKeys_false (keys : List (String × String)) :
    ∀ (m m2 : GoMap String) (s2 : Bool), rangeKeys keys m false = .ok (m2, s2) → s2 = false := by
  induction keys with
  | nil =>
    intro m m2 s2 h
    simp only [rangeKeys, Except.ok.injEq, Prod.mk.injEq] at h
    exact h.2.symm
  | cons p rest ih =>
    intro m m2 s2 h
    obtain ⟨key, value⟩ := p
    unfold rangeKeys at h
    by_cases h1 : mapGet m key = ""
    · rw [if_pos h1] at h
      cases h
    · rw [if_neg h1] at h
      by_cases h2 : value ≠ "" ∧ mapGet m key ≠ value
      · rw [if_pos h2] at h
        exact ih _ _ _ h
      · rw [if_neg h2] at h
        exact ih _ _ _ h

theorem rangeKeys_ok_spec (keys : List (String × String)) :
    ∀ (m : GoMap String) (s : Bool) (m2 : GoMap String) (s2 : Bool),
      (keys.map Prod.fst).Nodup → rangeKeys keys m s = .ok (m2, s2) →
      (s2 = true ↔ s = true ∧ ∀ kv ∈ keys, kv.2 = "" ∨ kv.2 = mapGet m kv.1) ∧
      (∀ k, mapGet m2 k =
        match List.lookup k keys with
        | some v => if v = "" then mapGet m k else v
        | none => mapGet m k) := by
  induction keys with
  | nil =>
    intro m s m2 s2 _ h
    simp only [rangeKeys, Except.ok.injEq, Prod.mk.injEq] at h
    obtain ⟨h1, h2⟩ := h
    subst h1 h2
    simp [List.lookup]
  | cons p rest ih =>
    intro m s m2 s2 hnd h
    obtain ⟨key, value⟩ := p
    simp only [List.map_cons, List.nodup_cons] at hnd
    obtain ⟨hkey, hnd⟩ := hnd
    have hnone := lookup_eq_none_of_not_mem rest key hkey
    unfold rangeKeys at h
    by_cases h1 : mapGet m key = ""
    · rw [if_pos h1] at h
      cases h
    · rw [if_neg h1] at h
      by_cases h2 : value ≠ "" ∧ mapGet m key ≠ value
      · rw [if_pos h2] at h
        have hs2 := rangeKeys_false _ _ _ _ h
        obtain ⟨_, ihm⟩ := ih _ _ _ _ hnd h
        constructor
        · constructor
          · intro hc
            rw [hs2] at hc
            cases hc
          · rintro ⟨_, hall⟩
            rcases hall (key, value) (List.mem_cons_self _ _) with h3 | h3
            · exact absurd h3 h2.1
            · exact absurd h3.symm h2.2
        · intro k
          rw [ihm k, lookup_cons_eq, mapGet_mapSet]
          by_cases hk : k = key
          · subst hk
            simp [hnone, h2.1]
          · simp [hk]
      · rw [if_neg h2] at h
        obtain ⟨ihs, ihm⟩ := ih _ _ _ _ hnd h
        have h3 : value = "" ∨ value = mapGet m key := by
          by_cases hv : value = ""
          · exact Or.inl hv
          · right
            by_contra hne
            exact h2 ⟨hv, fun h4 => hne h4.symm⟩
        constructor
        · rw [ihs]
          constructor
          · rintro ⟨hs, hall⟩
            refine ⟨hs, ?_⟩
            intro kv hkv
            rcases List.mem_cons.1 hkv with h4 | h4
            · subst h4
              exact h3
            · exact hall kv h4
          · rintro ⟨hs, hall⟩
            exact ⟨hs, fun kv hkv => hall kv (List.mem_cons_of_mem _ hkv)⟩
        · intro k
          rw [ihm k, lookup_cons_eq]
          by_cases hk : k = key
          · subst hk
            rw [hnone]
            rcases h3 with h4 | h4
            · simp [h4]
            · by_cases hv : value = ""
              · simp [hv]
              · simp [hv, h4]
          · simp [hk]

theorem rangeKeys_keysOK (keys : List (String × String)) :
    ∀ (m : GoMap String) (s : Bool) (m2 : GoMap String) (s2 : Bool),
      KeysOK m → rangeKeys keys m s = .ok (m2, s2) →
      KeysOK m2 ∧ ∀ kv ∈ keys, kv.1 ∈ logicalKeys := by
  induction keys with
  | nil =>
    intro m s m2 s2 hm h
    simp only [rangeKeys, Except.ok.injEq, Prod.mk.injEq] at h
    obtain ⟨h1, _⟩ := h
    subst h1
    exact ⟨hm, fun kv hkv => by cases hkv⟩
  | cons p rest ih =>
    intro m s m2 s2 hm h
    obtain ⟨key, value⟩ := p
    unfold rangeKeys at h
    by_cases h1 : mapGet m key = ""
    · rw [if_pos h1] at h
      cases h
    · rw [if_neg h1] at h
      have hk : key ∈ logicalKeys := (hm key).1 h1
      by_cases h2 : value ≠ "" ∧ mapGet m key ≠ value
      · rw [if_pos h2] at h
        obtain ⟨hm2, hall⟩ := ih _ _ _ _ (keysOK_mapSet hm h1 h2.1) h
        refine ⟨hm2, fun kv hkv => ?_⟩
        rcases List.mem_cons.1 hkv with h4 | h4
        · subst h4
          exact hk
        · exact hall kv h4
      · rw [if_neg h2] at h
        obtain ⟨hm2, hall⟩ := ih _ _ _ _ hm h
        refine ⟨hm2, fun kv hkv => ?_⟩
        rcases List.mem_cons.1 hkv with h4 | h4
        · subst h4
          exact hk
        · exact hall kv h4

/-- What a successful `NewJSONFormatter` returns, for a map without duplicate
keys. -/
theorem NewJSONFormatter_ok_spec (keys : GoMap String) (full : Bool) (f : jsonFormatter)
    (hnd : (keys.map Prod.fst).Nodup) (hok : NewJSONFormatter keys full = (some f, none)) :
    (f.structureFlag = true ↔ ∀ kv ∈ keys, kv.2 = "" ∨ kv.2 = mapGet defaultKeys kv.1) ∧
    f.name = outputName keys "name" ∧ f.time = outputName keys "time" ∧
    f.level = outputName keys "level" ∧ f.message = outputName keys "message" ∧
    f.fields = outputName keys "fields" ∧ f.caller = outputName keys "caller" ∧
    f.full = full ∧
    (∀ k ∈ logicalKeys, outputName keys k ≠ "") := by
  cases keys with
  | nil =>
    rw [NewJSONFormatter_nil] at hok
    simp only [Prod.mk.injEq, Option.some.injEq, and_true] at hok
    subst hok
    refine ⟨by simp [defaultNamed], rfl, rfl, rfl, rfl, rfl, rfl, rfl, ?_⟩
    decide
  | cons p rest =>
    simp only [NewJSONFormatter, List.length_cons, gt_iff_lt, Nat.zero_lt_succ, if_true] at hok
    cases hr : rangeKeys (p :: rest) defaultKeys true with
    | error err =>
      rw [hr] at hok
      simp at hok
    | ok r =>
      obtain ⟨m2, s2⟩ := r
      rw [hr] at hok
      simp only [Prod.mk.injEq, Option.some.injEq, and_true] at hok
      obtain ⟨hs, hm⟩ := rangeKeys_ok_spec _ _ _ _ _ hnd hr
      obtain ⟨hm2, _⟩ := rangeKeys_keysOK _ _ _ _ _ keysOK_defaultKeys hr
      have hname : ∀ k, mapGet m2 k = outputName (p :: rest) k := by
        intro k
        rw [hm k]
        rfl
      subst hok
      refine ⟨?_, hname _, hname _, hname _, hname _, hname _, hname _, rfl, ?_⟩
      · simp only [hs, true_and]
      · intro k hk
        rw [← hname k]
        exact (hm2 k).2 hk

theorem rangeKeys_true (keys : List (String × String)) :
    ∀ (m : GoMap String) (s : Bool) (m2 : GoMap String),
      rangeKeys keys m s = .ok (m2, true) → m2 = m := by
  induction keys with
  | nil =>
    intro m s m2 h
    simp only [rangeKeys, Except.ok.injEq, Prod.mk.injEq] at h
    exact h.1.symm
  | cons p rest ih =>
    intro m s m2 h
    obtain ⟨key, value⟩ := p
    unfold rangeKeys at h
    by_cases h1 : mapGet m key = ""
    · rw [if_pos h1] at h
      cases h
    · rw [if_neg h1] at h
      by_cases h2 : value ≠ "" ∧ mapGet m key ≠ value
      · rw [if_pos h2] at h
        have := rangeKeys_false _ _ _ _ h
        cases this
      · rw [if_neg h2] at h
        exact ih _ _ _ h

theorem NewJSONFormatter_structure_default (keys : GoMap String) (full : Bool)
    (f : jsonFormatter) (hok : NewJSONFormatter keys full = (some f, none))
    (hs : f.structureFlag = true) : f = defaultNamed full true := by
  cases keys with
  | nil =>
    rw [NewJSONFormatter_nil] at hok
    simp only [Prod.mk.injEq, Option.some.injEq, and_true] at hok
    exact hok.symm
  | cons p rest =>
    simp only [NewJSONFormatter, List.length_cons, gt_iff_lt, Nat.zero_lt_succ, if_true] at hok
    cases hr : rangeKeys (p :: rest) defaultKeys true with
    | error err =>
      rw [hr] at hok
      simp at hok
    | ok r =>
      obtain ⟨m2, s2⟩ := r
      rw [hr] at hok
      simp only [Prod.mk.injEq, Option.some.injEq, and_true] at hok
      subst hok
      simp only at hs
      subst hs
      have hm := rangeKeys_true _ _ _ _ hr
      subst hm
      cases full <;> rfl

theorem mem_insertMember (p q : String × JSON) (l : List (String × JSON)) :
    q ∈ insertMember p l ↔ q = p ∨ q ∈ l := by
  induction l with
  | nil => simp [insertMember]
  | cons x xs ih =>
    unfold insertMember
    by_cases h : keyLT x.1.data p.1.data = true
    · rw [if_pos h]
      simp only [List.mem_cons, ih]
      tauto
    · rw [if_neg h]
      simp only [List.mem_cons]

theorem mem_sortMembers (q : String × JSON) (l : List (String × JSON)) :
    q ∈ sortMembers l ↔ q ∈ l := by
  induction l with
  | nil => simp [sortMembers]
  | cons x xs ih =>
    unfold sortMembers
    rw [mem_insertMember, ih, List.mem_cons]

theorem mem_mapSet_self (m : GoMap JSON) (k : String) (v : JSON) : (k, v) ∈ mapSet m k v := by
  induction m with
  | nil => simp [mapSet]
  | cons p m ih =>
    obtain ⟨k0, v0⟩ := p
    unfold mapSet
    by_cases h : k0 = k
    · rw [if_pos h, h]
      exact List.mem_cons_self _ _
    · rw [if_neg h]
      exact List.mem_cons_of_mem _ ih

theorem mem_mapSet_of_ne (m : GoMap JSON) (k : String) (v : JSON) (q : String × JSON)
    (hne : q.1 ≠ k) (hq : q ∈ m) : q ∈ mapSet m k v := by
  induction m with
  | nil => cases hq
  | cons p m ih =>
    obtain ⟨k0, v0⟩ := p
    unfold mapSet
    rcases List.mem_cons.1 hq with h | h
    · have h0 : ¬ k0 = k := by
        intro h0
        rw [h] at hne
        exact hne h0
      rw [if_neg h0, h]
      exact List.mem_cons_self _ _
    · by_cases h0 : k0 = k
      · rw [if_pos h0]
        exact List.mem_cons_of_mem _ h
      · rw [if_neg h0]
        exact List.mem_cons_of_mem _ (ih h)

/-- A member that the map literal of `Format` has stays in the finished map when
neither of the two conditional assignments writes to its key. -/
theorem mem_buildMap_of_mem_literal (std : GoMap JSON → JSON) (f : jsonFormatter) (e : Entity)
    (q : String × JSON)
    (hq : q ∈ mapSet (mapSet (mapSet (mapSet ([] : GoMap JSON) f.name (.string e.name))
      f.time (.string e.timeString)) f.level (.string e.level.String))
      f.message (.string e.message))
    (hfields : (e.fields ≠ [] ∨ f.full = true) → q.1 ≠ f.fields)
    (hcaller : (f.full = true ∨ e.caller ≠ "") → q.1 ≠ f.caller) :
    q ∈ buildMap std f e := by
  unfold buildMap
  simp only
  have h5 : q ∈ (if e.fields.length > 0 then
      mapSet (mapSet (mapSet (mapSet (mapSet ([] : GoMap JSON) f.name (.string e.name))
        f.time (.string e.timeString)) f.level (.string e.level.String))
        f.message (.string e.message)) f.fields (std e.fields)
    else if f.full = true then
      mapSet (mapSet (mapSet (mapSet (mapSet ([] : GoMap JSON) f.name (.string e.name))
        f.time (.string e.timeString)) f.level (.string e.level.String))
        f.message (.string e.message)) f.fields (JSON.object [])
    else mapSet (mapSet (mapSet (mapSet ([] : GoMap JSON) f.name (.string e.name))
        f.time (.string e.timeString)) f.level (.string e.level.String))
        f.message (.string e.message)) := by
    by_cases hf : e.fields.length > 0
    · rw [if_pos hf]
      exact mem_mapSet_of_ne _ _ _ _
        (hfields (Or.inl ((fields_length_pos_iff e).1 hf))) hq
    · rw [if_neg hf]
      by_cases hfull : f.full = true
      · rw [if_pos hfull]
        exact mem_mapSet_of_ne _ _ _ _ (hfields (Or.inr hfull)) hq
      · rw [if_neg hfull]
        exact hq
  by_cases hc : (f.full || e.caller != "") = true
  · rw [if_pos hc]
    refine mem_mapSet_of_ne _ _ _ _ (hcaller ?_) h5
    simpa using hc
  · rw [if_neg hc]
    exact h5

theorem mem_defaultMembers (std : GoMap JSON → JSON) (e : Entity) (full : Bool) :
    ("name", JSON.string e.name) ∈ defaultMembers std e full ∧
    ("time", JSON.string e.timeString) ∈ defaultMembers std e full ∧
    ("level", JSON.string e.level.String) ∈ defaultMembers std e full ∧
    ("message", JSON.string e.message) ∈ defaultMembers std e full := by
  simp [defaultMembers]

/-- The counterexample to C5: the key map `name ↦ "time"` is accepted, the name
and the time are then both written under the key `time`, and the object that
`Format` emits for the sample entity (name `test`) holds the time string there
and the name nowhere. -/
theorem Format_loses_name_under_shared_key :
    NewJSONFormatter [("name", "time")] false =
      (some ⟨"time", "time", "level", "message", "fields", "caller", false, false⟩, none) ∧
    sampleEntity.name = "test" ∧
    ((⟨"time", "time", "level", "message", "fields", "caller", false, false⟩ :
        jsonFormatter).Format stdSample sampleEntity "" [] 0).buffer =
      "\x7b\"level\":\"info\",\"message\":\"foo\",\"time\":\"2021-03-04T05:06:07Z\"\x7d\n" ∧
    ¬ (("time", JSON.string "test") ∈
      ((⟨"time", "time", "level", "message", "fields", "caller", false, false⟩ :
        jsonFormatter).emitted stdSample sampleEntity).members) := by
  refine ⟨by decide, rfl, rfl, ?_⟩
  intro h
  simp +decide [jsonFormatter.emitted, JSON.members, mapToJSON, buildMap, sampleEntity,
    mapSet, sortMembers, insertMember, keyLT, Level.String] at h

theorem encode_string (s : String) : (JSON.string s).encode = .ok (encodeString s) := by
  simp [JSON.encode]

theorem encodeMembers_cons_string (k s : String) (ms : List (String × JSON)) :
    encodeMembers ((k, JSON.string s) :: ms) =
      (encodeMembers ms).map (fun ss => (encodeString k ++ ":" ++ encodeString s) :: ss) := by
  simp [encodeMembers, JSON.encode]

theorem encode_core_members (l m n t : String) :
    encodeMembers [("level", JSON.string l), ("message", .string m), ("name", .string n),
      ("time", .string t)] =
    .ok ["\"level\":" ++ encodeString l, "\"message\":" ++ encodeString m,
      "\"name\":" ++ encodeString n, "\"time\":" ++ encodeString t] := by
  simp only [encodeMembers_cons_string, encodeMembers]
  rfl

theorem encode_object_core (l m n t : String) :
    (JSON.object [("level", JSON.string l), ("message", .string m), ("name", .string n),
      ("time", .string t)]).encode =
    .ok ("\x7b\"level\":" ++ encodeString l ++ ",\"message\":" ++ encodeString m ++
      ",\"name\":" ++ encodeString n ++ ",\"time\":" ++ encodeString t ++ "\x7d") := by
  simp only [JSON.encode, encode_core_members]
  simp [Except.map, String.intercalate, String.intercalate.go, String.append_assoc]
  rfl

theorem encode_object_fields_core (v : JSON) (s l m n t : String) (hv : v.encode = .ok s) :
    (JSON.object [("fields", v), ("level", JSON.string l), ("message", .string m),
      ("name", .string n), ("time", .string t)]).encode =
    .ok ("\x7b\"fields\":" ++ s ++ ",\"level\":" ++ encodeString l ++ ",\"message\":" ++
      encodeString m ++ ",\"name\":" ++ encodeString n ++ ",\"time\":" ++ encodeString t ++
      "\x7d") := by
  simp only [JSON.encode, encodeMembers, hv, encode_core_members]
  simp [Except.map, String.intercalate, String.intercalate.go, String.append_assoc]
  rfl

/-- The counterexample to C6: for the sample entity with one field and no
caller, the default structural formatter with `full = false` writes the key
`fields` first, not last. -/
theorem Format_default_shape_fields_not_last :
    NewJSONFormatter [] false = (some (defaultNamed false true), none) ∧
    sampleEntityWithFields.fields ≠ [] ∧ sampleEntityWithFields.caller = "" ∧
    ((defaultNamed false true).emitted stdSample sampleEntityWithFields).keys =
      ["fields", "level", "message", "name", "time"] ∧
    ((defaultNamed false true).emitted stdSample sampleEntityWithFields).keys ≠
      ["level", "message", "name", "time", "fields"] ∧
    ((defaultNamed false true).Format stdSample sampleEntityWithFields "" [] 0).buffer =
      "\x7b\"fields\":\x7b\"k\":\"v\"\x7d,\"level\":\"info\",\"message\":\"foo\",\"name\":\"test\",\"time\":\"2021-03-04T05:06:07Z\"\x7d\n" := by
  refine ⟨rfl, by simp [sampleEntityWithFields], rfl, by decide, by decide, rfl⟩

/-- C7, evaluated on the code. The default JSON formatter is the default-named
structural formatter with `full = false`; for every level, message and time
string it renders the test's entity (no fields, no caller) as an object with the
four keys level, message, name, time and no `fields` key, while
`TestLogger_Log` expects the object that starts with `"fields":{}`; the two
byte strings differ. -/
theorem defaultJSONFormatter_omits_empty_fields (std : GoMap JSON → JSON) (now : String)
    (level : Level) (message : String) :
    defaultJSONFormatter = some (defaultNamed false true) ∧
    ((defaultNamed false true).Format std (testEntity now level message) "" [] 0).buffer =
      "" ++ ("\x7b\"level\":" ++ encodeString level.String ++ ",\"message\":" ++
        encodeString message ++ ",\"name\":" ++ encodeString "test" ++ ",\"time\":" ++
        encodeString now ++ "\x7d") ++ "\n" ∧
    expectedByTestLoggerLog now level message =
      "" ++ ("\x7b\"fields\":" ++ "\x7b\x7d" ++ ",\"level\":" ++ encodeString level.String ++
        ",\"message\":" ++ encodeString message ++ ",\"name\":" ++ encodeString "test" ++
        ",\"time\":" ++ encodeString now ++ "\x7d") ++ "\n" ∧
    ((defaultNamed false true).Format std (testEntity now level message) "" [] 0).buffer ≠
      expectedByTestLoggerLog now level message := by
  have h1 : ((defaultNamed false true).Format std (testEntity now level message) "" [] 0).buffer =
      "" ++ ("\x7b\"level\":" ++ encodeString level.String ++ ",\"message\":" ++
        encodeString message ++ ",\"name\":" ++ encodeString "test" ++ ",\"time\":" ++
        encodeString now ++ "\x7d") ++ "\n" := by
    have hfmt := Format_of_clean_pool std (defaultNamed false true)
      (testEntity now level message) "" poolClean_nil 0
    have hem : (defaultNamed false true).emitted std (testEntity now level message) =
        .object [("level", .string level.String), ("message", .string message),
          ("name", .string "test"), ("time", .string now)] := by
      rw [emitted_defaultNamed]
      simp [defaultMembers, testEntity]
    rw [hem, Encode, encode_object_core] at hfmt
    exact congrArg Prod.fst hfmt
  have h2 : expectedByTestLoggerLog now level message =
      "" ++ ("\x7b\"fields\":" ++ "\x7b\x7d" ++ ",\"level\":" ++ encodeString level.String ++
        ",\"message\":" ++ encodeString message ++ ",\"name\":" ++ encodeString "test" ++
        ",\"time\":" ++ encodeString now ++ "\x7d") ++ "\n" := by
    have hkv : mapToJSON (mapSet (mapSet (mapSet (mapSet (mapSet ([] : GoMap JSON) "name"
        (.string "test")) "time" (.string now)) "level" (.string level.String)) "message"
        (.string message)) "fields" (mapToJSON [])) =
        .object [("fields", mapToJSON []), ("level", .string level.String),
          ("message", .string message), ("name", .string "test"), ("time", .string now)] := by
      simp +decide [mapToJSON, mapSet, sortMembers, insertMember, keyLT]
    unfold expectedByTestLoggerLog
    simp only [hkv, Encode]
    rw [encode_object_fields_core (mapToJSON []) "\x7b\x7d" _ _ _ _ rfl]
  refine ⟨rfl, h1, h2, ?_⟩
  rw [h1, h2]
  intro heq
  have hd := congrArg String.data heq
  simp [String.data_append] at hd

theorem lookup_eq_some_iff_mem (m : GoMap String) (hnd : (m.map Prod.fst).Nodup)
    (k v : String) : List.lookup k m = some v ↔ (k, v) ∈ m := by
  induction m with
  | nil => simp [List.lookup]
  | cons p m ih =>
    obtain ⟨k0, v0⟩ := p
    simp only [List.map_cons, List.nodup_cons] at hnd
    obtain ⟨hk0, hnd⟩ := hnd
    rw [lookup_cons_eq, List.mem_cons]
    by_cases h : k = k0
    · subst h
      rw [if_pos rfl]
      constructor
      · intro hv
        simp only [Option.some.injEq] at hv
        exact Or.inl (by rw [hv])
      · rintro (hv | hv)
        · simp only [Prod.mk.injEq, true_and] at hv
          rw [hv]
        · exact absurd (List.mem_map_of_mem Prod.fst hv) hk0
    · rw [if_neg h, ih hnd]
      constructor
      · exact Or.inr
      · rintro (hv | hv)
        · simp only [Prod.mk.injEq] at hv
          exact absurd hv.1 h
        · exact hv

theorem outputName_spec (keys : GoMap String) (hnd : (keys.map Prod.fst).Nodup) (k : String) :
    (∀ v, (k, v) ∈ keys → v ≠ "" → outputName keys k = v) ∧
    ((∀ v, (k, v) ∈ keys → v = "") → outputName keys k = mapGet defaultKeys k) := by
  unfold outputName
  constructor
  · intro v hv hne
    rw [(lookup_eq_some_iff_mem keys hnd k v).2 hv]
    simp [hne]
  · intro hall
    cases hl : List.lookup k keys with
    | none => rfl
    | some v =>
      have hv := hall v ((lookup_eq_some_iff_mem keys hnd k v).1 hl)
      simp [hv]

/-- C9. For a key map that `NewJSONFormatter` accepts, the formatter is
structural exactly when no entry gives a logical key a non-empty name other
than its default; and each of the six output names is non-empty, is the value
of the key's entry when that value is non-empty, and is the default name when
the key has no entry or an entry with the empty string. The default name of
each logical key is the key itself. -/
theorem NewJSONFormatter_structure_iff_no_remap (keys : GoMap String) (full : Bool)
    (f : jsonFormatter) (hnd : (keys.map Prod.fst).Nodup)
    (hok : NewJSONFormatter keys full = (some f, none)) :
    (f.structureFlag = true ↔
      ¬ ∃ kv ∈ keys, kv.2 ≠ "" ∧ kv.2 ≠ mapGet defaultKeys kv.1) ∧
    (∀ k ∈ logicalKeys,
      f.outputKey k ≠ "" ∧
      (∀ v, (k, v) ∈ keys → v ≠ "" → f.outputKey k = v) ∧
      ((∀ v, (k, v) ∈ keys → v = "") → f.outputKey k = mapGet defaultKeys k)) ∧
    (∀ k ∈ logicalKeys, mapGet defaultKeys k = k) := by
  obtain ⟨hs, hn, ht, hl, hm, hfi, hc, _, hne⟩ := NewJSONFormatter_ok_spec keys full f hnd hok
  have hkey : ∀ k ∈ logicalKeys, f.outputKey k = outputName keys k := by
    intro k hk
    simp only [logicalKeys, List.mem_cons, List.mem_nil_iff, or_false] at hk
    rcases hk with h | h | h | h | h | h <;> subst h <;>
      simp +decide [jsonFormatter.outputKey, hn, ht, hl, hm, hfi, hc]
  refine ⟨?_, ?_, ?_⟩
  · rw [hs]
    constructor
    · rintro hall ⟨kv, hkv, h1, h2⟩
      rcases hall kv hkv with h | h
      · exact h1 h
      · exact h2 h
    · intro hno kv hkv
      by_cases h1 : kv.2 = ""
      · exact Or.inl h1
      · right
        by_contra h2
        exact hno ⟨kv, hkv, h1, h2⟩
  · intro k hk
    rw [hkey k hk]
    exact ⟨hne k hk, outputName_spec keys hnd k⟩
  · intro k hk
    rw [mapGet_defaultKeys, if_pos hk]

theorem NewJSONFormatter_structure_iff_no_remap_witness :
    ([("name", "n"), ("time", ""), ("level", "level")].map Prod.fst).Nodup ∧
    NewJSONFormatter [("name", "n"), ("time", ""), ("level", "level")] true =
      (some ⟨"n", "time", "level", "message", "fields", "caller", true, false⟩, none) ∧
    (((⟨"n", "time", "level", "message", "fields", "caller", true, false⟩ :
        jsonFormatter).structureFlag = true) ↔
      ¬ ∃ kv ∈ [("name", "n"), ("time", ""), ("level", "level")],
        kv.2 ≠ "" ∧ kv.2 ≠ mapGet defaultKeys kv.1) :=
  ⟨by decide, by decide,
   (NewJSONFormatter_structure_iff_no_remap [("name", "n"), ("time", ""), ("level", "level")]
      true ⟨"n", "time", "level", "message", "fields", "caller", true, false⟩
      (by decide) (by decide)).1⟩

theorem runFormats_clean (std : GoMap JSON → JSON)
    (calls : List (jsonFormatter × Entity × String × Nat)) :
    ∀ pool, PoolClean pool → PoolClean (runFormats std calls pool) := by
  induction calls with
  | nil => intro pool h; exact h
  | cons c rest ih =>
    intro pool h
    obtain ⟨f, e, b, pick⟩ := c
    exact ih _ (Format_pool_clean std f e b h pick)

/-- C10. `putJSONFormatterObject` puts the object back with all six fields at
their zero values; if every pooled object is zeroed, then after a `Format` call
(whichever object the pool hands out, whether the encoding succeeds or fails)
and after any sequence of further `Format` calls every pooled object is still
zeroed; and the bytes and the error of a `Format` call are those of a call on
an empty pool, whatever was formatted before. -/
theorem Format_keeps_pool_zeroed (std : GoMap JSON → JSON) (o : jsonFormatterObject)
    (f : jsonFormatter) (e : Entity) (b : String) (pool : Pool) (pick : Nat)
    (earlier : List (jsonFormatter × Entity × String × Nat)) (hpool : PoolClean pool) :
    putJSONFormatterObject o pool =
      { Caller := none, Fields := none, Level := "", Message := "", Name := "", Time := "" }
        :: pool ∧
    PoolClean (putJSONFormatterObject o pool) ∧
    PoolClean (f.Format std e b pool pick).pool ∧
    PoolClean (runFormats std earlier pool) ∧
    (f.Format std e b (runFormats std earlier pool) pick).buffer =
      (f.Format std e b [] 0).buffer ∧
    (f.Format std e b (runFormats std earlier pool) pick).err =
      (f.Format std e b [] 0).err := by
  have hrun := runFormats_clean std earlier pool hpool
  have e1 := Format_of_clean_pool std f e b hrun pick
  have e2 := Format_of_clean_pool std f e b poolClean_nil 0
  rw [← e2] at e1
  exact ⟨rfl, poolClean_cons rfl hpool, Format_pool_clean std f e b hpool pick, hrun,
    congrArg Prod.fst e1, congrArg Prod.snd e1⟩

theorem Format_keeps_pool_zeroed_witness :
    PoolClean [newJSONFormatterObject] ∧
    ((defaultNamed true true).Format stdSample sampleEntityUnsupported "" [newJSONFormatterObject]
      0).err = some "boom" ∧
    PoolClean ((defaultNamed true true).Format stdSample sampleEntityUnsupported ""
      [newJSONFormatterObject] 0).pool ∧
    ((defaultNamed false true).Format stdSample sampleEntity ""
      (runFormats stdSample [(defaultNamed true true, sampleEntityWithFields, "", 0)]
        [newJSONFormatterObject]) 0).buffer =
      ((defaultNamed false true).Format stdSample sampleEntity "" [] 0).buffer :=
  ⟨poolClean_cons rfl poolClean_nil, rfl,
   (Format_keeps_pool_zeroed stdSample newJSONFormatterObject (defaultNamed true true)
      sampleEntityUnsupported "" [newJSONFormatterObject] 0 []
      (poolClean_cons rfl poolClean_nil)).2.2.1,
   (Format_keeps_pool_zeroed stdSample newJSONFormatterObject (defaultNamed false true)
      sampleEntity "" [newJSONFormatterObject] 0
      [(defaultNamed true true, sampleEntityWithFields, "", 0)]
      (poolClean_cons rfl poolClean_nil)).2.2.2.2.1⟩

theorem encodeMembers_strings (l : List (String × String)) :
    encodeMembers (l.map (fun p => (p.1, JSON.string p.2))) =
      .ok (l.map (fun p => encodeString p.1 ++ ":" ++ encodeString p.2)) := by
  induction l with
  | nil => rfl
  | cons p l ih =>
    obtain ⟨k, s⟩ := p
    simp only [List.map_cons, encodeMembers_cons_string, ih]
    rfl

/-- The default JSON formatter renders every entity without fields: the bytes
are a text followed by a line break, with no error. -/
theorem defaultFormat_no_fields (std : GoMap JSON → JSON) (e : Entity) (hf : e.fields = []) :
    ∃ text, defaultFormat std e = ("" ++ text ++ "\n", none) := by
  have hfmt := Format_of_clean_pool std (defaultNamed false true) e "" poolClean_nil 0
  have hem : (defaultNamed false true).emitted std e =
      .object (((if e.caller = "" then [] else [("caller", e.caller)]) ++
        [("level", e.level.String), ("message", e.message), ("name", e.name),
          ("time", e.timeString)]).map (fun p => (p.1, JSON.string p.2))) := by
    rw [emitted_defaultNamed]
    by_cases hc : e.caller = "" <;> simp [defaultMembers, hf, hc]
  rw [hem, Encode] at hfmt
  simp only [JSON.encode, encodeMembers_strings, Except.map] at hfmt
  exact ⟨_, hfmt⟩

theorem log_at_or_above_threshold (lg : Logger) (L : Level) (message now caller : String)
    (hL : lg.level.rank ≤ L.rank) (record : String)
    (hrec : lg.formatter (lg.entity L message now caller) = (record, none)) :
    (lg.log L message now caller).1.sink = lg.sink ++ record ∧
    (lg.log L message now caller).1.hookCalls =
      lg.hookCalls ++ (lg.hooks.filter (fun h => decide (L ∈ h.levels))).map
        (fun h => (h.callback, L, message)) ∧
    (lg.log L message now caller).2 = none := by
  have hnot : ¬ L.rank < lg.level.rank := Nat.not_lt.2 hL
  unfold Logger.log
  rw [if_neg hnot]
  dsimp only
  rw [hrec]
  cases L <;> exact ⟨rfl, rfl, rfl⟩

/-- C8. With the threshold set to `L2`, a log call at a level `L1` strictly
below `L2` changes nothing: no byte reaches the sink and no hook is invoked.
A call at a level equal to or above `L2` whose entity the formatter renders
appends that record to the sink and invokes the hooks registered for the
level; a logger created by `New` always renders its record, which is not
empty. -/
theorem log_below_threshold_writes_nothing (lg : Logger) (L1 L2 : Level)
    (message now caller : String) (hlt : L1.rank < L2.rank) :
    (lg.SetLevel L2).log L1 message now caller = (lg.SetLevel L2, none) ∧
    ((lg.SetLevel L2).log L1 message now caller).1.sink = lg.sink ∧
    ((lg.SetLevel L2).log L1 message now caller).1.hookCalls = lg.hookCalls ∧
    (∀ L : Level, L2.rank ≤ L.rank → ∀ record,
      lg.formatter (lg.entity L message now caller) = (record, none) →
      ((lg.SetLevel L2).log L message now caller).1.sink = lg.sink ++ record ∧
      ((lg.SetLevel L2).log L message now caller).1.hookCalls =
        lg.hookCalls ++ (lg.hooks.filter (fun h => decide (L ∈ h.levels))).map
          (fun h => (h.callback, L, message)) ∧
      ((lg.SetLevel L2).log L message now caller).2 = none) ∧
    (∀ (std : GoMap JSON → JSON) (name : String) (L : Level), L2.rank ≤ L.rank →
      ∃ record, record ≠ "" ∧
        defaultFormat std ((New std name).entity L message now caller) = (record, none) ∧
        (((New std name).SetLevel L2).log L message now caller).1.sink = record ∧
        (((New std name).SetLevel L2).log L message now caller).2 = none) := by
  have hdrop : (lg.SetLevel L2).log L1 message now caller = (lg.SetLevel L2, none) := by
    simp [Logger.log, Logger.SetLevel, hlt]
  have hpass : ∀ (lg : Logger) (L : Level), L2.rank ≤ L.rank → ∀ record,
      lg.formatter (lg.entity L message now caller) = (record, none) →
      ((lg.SetLevel L2).log L message now caller).1.sink = lg.sink ++ record ∧
      ((lg.SetLevel L2).log L message now caller).1.hookCalls =
        lg.hookCalls ++ (lg.hooks.filter (fun h => decide (L ∈ h.levels))).map
          (fun h => (h.callback, L, message)) ∧
      ((lg.SetLevel L2).log L message now caller).2 = none := by
    intro lg L hL record hrec
    exact log_at_or_above_threshold (lg.SetLevel L2) L message now caller hL record hrec
  refine ⟨hdrop, ?_, ?_, hpass lg, ?_⟩
  · rw [hdrop]
    rfl
  · rw [hdrop]
    rfl
  · intro std name L hL
    obtain ⟨text, htext⟩ := defaultFormat_no_fields std
      ((New std name).entity L message now caller) rfl
    obtain ⟨h1, _, h3⟩ := hpass (New std name) L hL _ htext
    refine ⟨"" ++ text ++ "\n", ?_, htext, ?_, h3⟩
    · intro h
      have hlen := congrArg String.length h
      simp only [String.length_append] at hlen
      have hnl : "\n".length = 1 := rfl
      omega
    · rw [h1]
      simp [New]

theorem log_below_threshold_writes_nothing_witness :
    Level.Warn.rank < Level.Error.rank ∧
    ((((New stdSample "test").AddHookFunc [.Warn, .Error] 7).SetLevel .Error).log .Warn "foo"
      "2021-03-04T05:06:07Z" "").1.sink = "" ∧
    ((((New stdSample "test").AddHookFunc [.Warn, .Error] 7).SetLevel .Error).log .Warn "foo"
      "2021-03-04T05:06:07Z" "").1.hookCalls = [] :=
  ⟨by decide,
   (log_below_threshold_writes_nothing ((New stdSample "test").AddHookFunc [.Warn, .Error] 7)
      .Warn .Error "foo" "2021-03-04T05:06:07Z" "" (by decide)).2.1,
   (log_below_threshold_writes_nothing ((New stdSample "test").AddHookFunc [.Warn, .Error] 7)
      .Warn .Error "foo" "2021-03-04T05:06:07Z" "" (by decide)).2.2.1⟩

theorem rangeKeys_error_key (keys : List (String × String)) :
    ∀ (m : GoMap String) (s : Bool) (key : String), KeysOK m →
      rangeKeys keys m s = .error (.invalidKey key) →
      key ∈ keys.map Prod.fst ∧ key ∉ logicalKeys := by
  induction keys with
  | nil =>
    intro m s key _ h
    simp [rangeKeys] at h
  | cons p rest ih =>
    intro m s key hm h
    obtain ⟨k0, v0⟩ := p
    unfold rangeKeys at h
    by_cases h1 : mapGet m k0 = ""
    · rw [if_pos h1] at h
      simp only [Except.error.injEq, KeyError.invalidKey.injEq] at h
      subst h
      exact ⟨by simp, fun hk => (hm k0).2 hk h1⟩
    · rw [if_neg h1] at h
      by_cases h2 : v0 ≠ "" ∧ mapGet m k0 ≠ v0
      · rw [if_pos h2] at h
        obtain ⟨hmem, hbad⟩ := ih _ _ _ (keysOK_mapSet hm h1 h2.1) h
        exact ⟨List.mem_cons_of_mem _ hmem, hbad⟩
      · rw [if_neg h2] at h
        obtain ⟨hmem, hbad⟩ := ih _ _ _ hm h
        exact ⟨List.mem_cons_of_mem _ hmem, hbad⟩

/-- The two shapes of a result of `NewJSONFormatter`: a formatter with a nil
error, or a nil formatter with the error for a key of the map that is not one
of the six. -/
theorem NewJSONFormatter_result (keys : GoMap String) (full : Bool) :
    (∃ f, NewJSONFormatter keys full = (some f, none)) ∨
    (∃ key, NewJSONFormatter keys full = (none, some (.invalidKey key)) ∧
      key ∈ keys.map Prod.fst ∧ key ∉ logicalKeys) := by
  cases keys with
  | nil => exact Or.inl ⟨_, NewJSONFormatter_nil full⟩
  | cons p rest =>
    simp only [NewJSONFormatter, List.length_cons, gt_iff_lt, Nat.zero_lt_succ, if_true]
    cases hr : rangeKeys (p :: rest) defaultKeys true with
    | error err =>
      obtain ⟨key⟩ := err
      exact Or.inr ⟨key, rfl, rangeKeys_error_key _ _ _ _ keysOK_defaultKeys hr⟩
    | ok r => exact Or.inl ⟨_, rfl⟩

theorem NewJSONFormatter_fails_iff (keys : GoMap String) (full : Bool) :
    (∃ err, NewJSONFormatter keys full = (none, some err)) ↔
      ∃ kv ∈ keys, kv.1 ∉ logicalKeys := by
  cases keys with
  | nil => simp [NewJSONFormatter]
  | cons p rest =>
    rw [← rangeKeys_error_iff (p :: rest) defaultKeys true keysOK_defaultKeys]
    simp only [NewJSONFormatter, List.length_cons, gt_iff_lt, Nat.zero_lt_succ, if_true]
    cases h : rangeKeys (p :: rest) defaultKeys true with
    | error err => simp
    | ok r => simp

theorem lookup_perm (keys1 keys2 : GoMap String) (hperm : keys1.Perm keys2)
    (hnd : (keys1.map Prod.fst).Nodup) (k : String) :
    List.lookup k keys1 = List.lookup k keys2 := by
  have hnd2 : (keys2.map Prod.fst).Nodup := (hperm.map Prod.fst).nodup_iff.1 hnd
  cases h1 : List.lookup k keys1 with
  | some v =>
    have hm := hperm.mem_iff.1 ((lookup_eq_some_iff_mem keys1 hnd k v).1 h1)
    exact ((lookup_eq_some_iff_mem keys2 hnd2 k v).2 hm).symm
  | none =>
    cases h2 : List.lookup k keys2 with
    | none => rfl
    | some v =>
      have hm := hperm.mem_iff.2 ((lookup_eq_some_iff_mem keys2 hnd2 k v).1 h2)
      rw [(lookup_eq_some_iff_mem keys1 hnd k v).2 hm] at h1
      cases h1

theorem outputName_perm (keys1 keys2 : GoMap String) (hperm : keys1.Perm keys2)
    (hnd : (keys1.map Prod.fst).Nodup) (k : String) :
    outputName keys1 k = outputName keys2 k := by
  unfold outputName
  rw [lookup_perm keys1 keys2 hperm hnd k]

/-- Two visiting orders of one map that are both accepted give the same
formatter. -/
theorem NewJSONFormatter_perm_ok (keys1 keys2 : GoMap String) (full : Bool)
    (hperm : keys1.Perm keys2) (hnd : (keys1.map Prod.fst).Nodup) (f g : jsonFormatter)
    (hf : NewJSONFormatter keys1 full = (some f, none))
    (hg : NewJSONFormatter keys2 full = (some g, none)) : f = g := by
  have hnd2 : (keys2.map Prod.fst).Nodup := (hperm.map Prod.fst).nodup_iff.1 hnd
  obtain ⟨fs, fn, ft, fl, fm, ffi, fc, ffull, _⟩ := NewJSONFormatter_ok_spec keys1 full f hnd hf
  obtain ⟨gs, gn, gt, gl, gm, gfi, gc, gfull, _⟩ := NewJSONFormatter_ok_spec keys2 full g hnd2 hg
  have hflag : f.structureFlag = g.structureFlag := by
    rw [Bool.eq_iff_iff, fs, gs]
    exact ⟨fun h kv hkv => h kv (hperm.mem_iff.2 hkv), fun h kv hkv => h kv (hperm.mem_iff.1 hkv)⟩
  simp only [← outputName_perm keys1 keys2 hperm hnd] at gn gt gl gm gfi gc
  obtain ⟨a1, a2, a3, a4, a5, a6, a7, a8⟩ := f
  obtain ⟨b1, b2, b3, b4, b5, b6, b7, b8⟩ := g
  simp only at fn ft fl fm ffi fc ffull gn gt gl gm gfi gc gfull hflag
  subst fn ft fl fm ffi fc ffull gn gt gl gm gfi gc hflag
  rw [gfull]

theorem rangeKeys_error_first (keys : List (String × String)) :
    ∀ (m : GoMap String) (s : Bool) (key : String), KeysOK m →
      (rangeKeys keys m s = .error (.invalidKey key) ↔
        (keys.map Prod.fst).find? (fun k => decide (k ∉ logicalKeys)) = some key) := by
  induction keys with
  | nil =>
    intro m s key _
    simp [rangeKeys]
  | cons p rest ih =>
    intro m s key hm
    obtain ⟨k0, v0⟩ := p
    unfold rangeKeys
    by_cases h1 : mapGet m k0 = ""
    · have hbad : k0 ∉ logicalKeys := fun hk => (hm k0).2 hk h1
      rw [if_pos h1]
      simp [List.find?, hbad]
    · have hgood : k0 ∈ logicalKeys := (hm k0).1 h1
      rw [if_neg h1]
      have hfind : ((((k0, v0) :: rest).map Prod.fst).find?
          (fun k => decide (k ∉ logicalKeys))) =
          (rest.map Prod.fst).find? (fun k => decide (k ∉ logicalKeys)) := by
        simp [List.find?, hgood]
      rw [hfind]
      by_cases h2 : v0 ≠ "" ∧ mapGet m k0 ≠ v0
      · rw [if_pos h2]
        exact ih _ _ _ (keysOK_mapSet hm h1 h2.1)
      · rw [if_neg h2]
        exact ih _ _ _ hm

theorem NewJSONFormatter_error_first (keys : GoMap String) (full : Bool) (key : String) :
    NewJSONFormatter keys full = (none, some (.invalidKey key)) ↔
      (keys.map Prod.fst).find? (fun k => decide (k ∉ logicalKeys)) = some key := by
  cases keys with
  | nil => simp [NewJSONFormatter]
  | cons p rest =>
    rw [← rangeKeys_error_first (p :: rest) defaultKeys true key keysOK_defaultKeys]
    simp only [NewJSONFormatter, List.length_cons, gt_iff_lt, Nat.zero_lt_succ, if_true]
    cases h : rangeKeys (p :: rest) defaultKeys true with
    | error err => simp
    | ok r => simp

/-- The counterexample to C11: the map with the two unknown keys `msg` and `ts`
is rejected in both visiting orders, but with the error for `msg` when `msg`
is visited first and with the error for `ts` when `ts` is visited first, so
the two results differ. -/
theorem NewJSONFormatter_error_depends_on_order :
    List.Perm [("msg", "m"), ("ts", "t")] [("ts", "t"), ("msg", "m")] ∧
    ([("msg", "m"), ("ts", "t")].map Prod.fst).Nodup ∧
    NewJSONFormatter [("msg", "m"), ("ts", "t")] false = (none, some (.invalidKey "msg")) ∧
    NewJSONFormatter [("ts", "t"), ("msg", "m")] false = (none, some (.invalidKey "ts")) ∧
    NewJSONFormatter [("msg", "m"), ("ts", "t")] false ≠
      NewJSONFormatter [("ts", "t"), ("msg", "m")] false := by
  refine ⟨List.Perm.swap _ _ _, by decide, by decide, by decide, by decide⟩

/-- C11, amended. For two visiting orders of one key map (no duplicate keys):
one is accepted exactly when the other is, and then both return the same
formatter (the six output names, `full` and the structure flag); one is
rejected exactly when the other is, and the error then names a key of the map
that is not one of the six logical keys, the first such key in the visiting
order; when all keys of the map outside the six are one and the same key, the
two results, error included, are equal. -/
theorem NewJSONFormatter_order_independent_up_to_error_key (keys1 keys2 : GoMap String)
    (full : Bool) (hperm : keys1.Perm keys2) (hnd : (keys1.map Prod.fst).Nodup) :
    (∀ f, NewJSONFormatter keys1 full = (some f, none) ↔
      NewJSONFormatter keys2 full = (some f, none)) ∧
    ((∃ err, NewJSONFormatter keys1 full = (none, some err)) ↔
      (∃ err, NewJSONFormatter keys2 full = (none, some err))) ∧
    (∀ key, NewJSONFormatter keys1 full = (none, some (.invalidKey key)) ↔
      (keys1.map Prod.fst).find? (fun k => decide (k ∉ logicalKeys)) = some key) ∧
    (∀ key, NewJSONFormatter keys1 full = (none, some (.invalidKey key)) →
      key ∈ keys1.map Prod.fst ∧ key ∉ logicalKeys) ∧
    ((∀ a ∈ keys1, ∀ b ∈ keys1, a.1 ∉ logicalKeys → b.1 ∉ logicalKeys → a.1 = b.1) →
      NewJSONFormatter keys1 full = NewJSONFormatter keys2 full) := by
  have hnd2 : (keys2.map Prod.fst).Nodup := (hperm.map Prod.fst).nodup_iff.1 hnd
  have hfail : (∃ err, NewJSONFormatter keys1 full = (none, some err)) ↔
      (∃ err, NewJSONFormatter keys2 full = (none, some err)) := by
    rw [NewJSONFormatter_fails_iff, NewJSONFormatter_fails_iff]
    exact ⟨fun ⟨kv, hkv, h⟩ => ⟨kv, hperm.mem_iff.1 hkv, h⟩,
      fun ⟨kv, hkv, h⟩ => ⟨kv, hperm.mem_iff.2 hkv, h⟩⟩
  have hok : ∀ (k1 k2 : GoMap String), k1.Perm k2 → (k1.map Prod.fst).Nodup →
      ((∃ err, NewJSONFormatter k1 full = (none, some err)) ↔
        (∃ err, NewJSONFormatter k2 full = (none, some err))) →
      ∀ f, NewJSONFormatter k1 full = (some f, none) →
        NewJSONFormatter k2 full = (some f, none) := by
    intro k1 k2 hp hn hfl f hf
    rcases NewJSONFormatter_result k2 full with ⟨g, hg⟩ | ⟨key, hkey, _, _⟩
    · rw [NewJSONFormatter_perm_ok k1 k2 full hp hn f g hf hg]
      exact hg
    · obtain ⟨err, herr⟩ := hfl.2 ⟨_, hkey⟩
      rw [herr] at hf
      simp at hf
  have hkeyOf : ∀ key, NewJSONFormatter keys1 full = (none, some (.invalidKey key)) →
      key ∈ keys1.map Prod.fst ∧ key ∉ logicalKeys := by
    intro key hkey
    rcases NewJSONFormatter_result keys1 full with ⟨f, hf⟩ | ⟨key2, hkey2, hmem, hbad⟩
    · rw [hf] at hkey
      simp at hkey
    · rw [hkey2] at hkey
      simp only [Prod.mk.injEq, Option.some.injEq, KeyError.invalidKey.injEq, true_and] at hkey
      subst hkey
      exact ⟨hmem, hbad⟩
  refine ⟨fun f => ⟨hok keys1 keys2 hperm hnd hfail f,
    hok keys2 keys1 hperm.symm hnd2 hfail.symm f⟩, hfail,
    NewJSONFormatter_error_first keys1 full, hkeyOf, ?_⟩
  intro hone
  rcases NewJSONFormatter_result keys1 full with ⟨f, hf⟩ | ⟨k1, hk1, hm1, hb1⟩
  · rw [hf, hok keys1 keys2 hperm hnd hfail f hf]
  · rcases NewJSONFormatter_result keys2 full with ⟨g, hg⟩ | ⟨k2, hk2, hm2, hb2⟩
    · obtain ⟨err, herr⟩ := hfail.1 ⟨_, hk1⟩
      rw [herr] at hg
      simp at hg
    · obtain ⟨a, ha, ha1⟩ := List.mem_map.1 hm1
      obtain ⟨b, hb, hb1'⟩ := List.mem_map.1 hm2
      have hb' : b ∈ keys1 := hperm.mem_iff.2 hb
      have heq : a.1 = b.1 := hone a ha b hb' (by rw [ha1]; exact hb1) (by rw [hb1']; exact hb2)
      rw [hk1, hk2, ← ha1, ← hb1', heq]

theorem NewJSONFormatter_order_independent_up_to_error_key_witness :
    List.Perm [("name", "n"), ("ts", "t"), ("time", "")]
      [("time", ""), ("ts", "t"), ("name", "n")] ∧
    ([("name", "n"), ("ts", "t"), ("time", "")].map Prod.fst).Nodup ∧
    NewJSONFormatter [("name", "n"), ("ts", "t"), ("time", "")] true =
      NewJSONFormatter [("time", ""), ("ts", "t"), ("name", "n")] true :=
  ⟨List.reverse_perm [("time", ""), ("ts", "t"), ("name", "n")], by decide,
   (NewJSONFormatter_order_independent_up_to_error_key
      [("name", "n"), ("ts", "t"), ("time", "")] [("time", ""), ("ts", "t"), ("name", "n")]
      true (List.reverse_perm [("time", ""), ("ts", "t"), ("name", "n")]) (by decide)).2.2.2.2
      (by decide)⟩

theorem encode_object (ms : List (String × JSON)) :
    (JSON.object ms).encode = (encodeMembers ms).map objectText := by
  simp only [JSON.encode]
  rfl

theorem encodeMembers_ok_iff (ms : List (String × JSON)) :
    ∀ ts, encodeMembers ms = .ok ts ↔ MemberTexts ms ts := by
  induction ms with
  | nil =>
    intro ts
    simp only [encodeMembers, MemberTexts, Except.ok.injEq]
    constructor
    · intro h
      subst h
      exact List.Forall₂.nil
    · intro h
      cases h
      rfl
  | cons m ms ih =>
    intro ts
    obtain ⟨k, v⟩ := m
    unfold encodeMembers
    cases hv : v.encode with
    | error msg =>
      simp only [MemberTexts]
      constructor
      · intro h
        cases h
      · intro h
        cases h with
        | cons h1 _ =>
          obtain ⟨vt, hvt, _⟩ := h1
          rw [hv] at hvt
          cases hvt
    | ok s =>
      cases hms : encodeMembers ms with
      | error msg =>
        simp only [Except.map]
        constructor
        · intro h
          cases h
        · intro h
          cases h with
          | cons _ h2 =>
            have := (ih _).2 h2
            rw [hms] at this
            cases this
      | ok ss =>
        simp only [Except.map, Except.ok.injEq]
        constructor
        · intro h
          subst h
          exact List.Forall₂.cons ⟨s, hv, rfl⟩ ((ih ss).1 hms)
        · intro h
          cases h with
          | cons h1 h2 =>
            obtain ⟨vt, hvt, ht⟩ := h1
            rw [hv] at hvt
            simp only [Except.ok.injEq] at hvt
            have := (ih _).2 h2
            rw [hms] at this
            simp only [Except.ok.injEq] at this
            subst hvt this ht
            rfl

theorem Encode_object_ok (b : String) (ms : List (String × JSON)) (ts : List String)
    (h : MemberTexts ms ts) :
    Encode b (.object ms) = (b ++ objectText ts ++ "\n", none) := by
  rw [Encode, encode_object, (encodeMembers_ok_iff ms ts).2 h]
  rfl

theorem Encode_object_error (b : String) (ms : List (String × JSON))
    (h : ∀ ts, ¬ MemberTexts ms ts) :
    ∃ msg, Encode b (.object ms) = (b, some msg) := by
  rw [Encode, encode_object]
  cases hms : encodeMembers ms with
  | error msg => exact ⟨msg, rfl⟩
  | ok ts => exact absurd ((encodeMembers_ok_iff ms ts).1 hms) (h ts)

theorem encode_empty_object : (JSON.object []).encode = .ok "\x7b\x7d" := by
  rfl

theorem memberTexts_default_no_fields (std : GoMap JSON → JSON) (e : Entity) (full : Bool)
    (hf : e.fields = []) :
    MemberTexts (defaultMembers std e full)
      (defaultTexts e full (if full = true then some "\x7b\x7d" else none)) := by
  by_cases hc : e.caller = "" <;> cases full <;>
    simp [MemberTexts, defaultMembers, defaultTexts, hf, hc, encode_string, encode_empty_object]

theorem memberTexts_default_fields (std : GoMap JSON → JSON) (e : Entity) (full : Bool)
    (s : String) (hf : e.fields ≠ []) (hs : (std e.fields).encode = .ok s) :
    MemberTexts (defaultMembers std e full) (defaultTexts e full (some s)) := by
  have hlen : e.fields.length > 0 := (fields_length_pos_iff e).2 hf
  by_cases hc : e.caller = "" <;> cases full <;>
    simp [MemberTexts, defaultMembers, defaultTexts, hlen, hc, encode_string, hs]

theorem Encode_default_fields_error (std : GoMap JSON → JSON) (e : Entity) (full : Bool)
    (b msg : String) (hf : e.fields ≠ []) (hs : (std e.fields).encode = .error msg) :
    Encode b (.object (defaultMembers std e full)) = (b, some msg) := by
  have hlen : e.fields.length > 0 := (fields_length_pos_iff e).2 hf
  by_cases hc : e.caller = "" <;> cases full <;>
    simp [Encode, JSON.encode, encodeMembers, defaultMembers, hlen, hc, hs, Except.map]

/-- The counterexample to C2: the sample entity whose one field cannot be
marshalled has non-empty fields, yet the default formatter writes nothing for
it (the buffer is left as it was and the error is returned), so no `fields` key
is emitted. -/
theorem Format_emits_nothing_on_unmarshalable_fields :
    NewJSONFormatter [] false = (some (defaultNamed false true), none) ∧
    sampleEntityUnsupported.fields ≠ [] ∧
    ((defaultNamed false true).Format stdSample sampleEntityUnsupported "pre" [] 0).buffer =
      "pre" ∧
    ((defaultNamed false true).Format stdSample sampleEntityUnsupported "pre" [] 0).err =
      some "boom" := by
  refine ⟨rfl, by simp [sampleEntityUnsupported], rfl, rfl⟩

/-- C2, amended. Under the default key names (either path; the formatter built
from no key map is the default-named one), the object that `Format` hands to
the encoder has the key `fields` exactly when the entity's fields are non-empty
or `full` is set, with the empty object as its value when the fields are empty
and `full` is set, and the key `caller` exactly when `full` is set or the
caller is non-empty, with the empty string as its value when the caller is
unset and `full` is set. When the fields are empty, or non-empty with a value
that the encoder can marshal, `Format` returns no error and appends to the
buffer exactly the text of that object and a line break: the member `caller`
when emitted, the member `fields` when emitted, then level, message, name and
time. When the fields are non-empty and cannot be marshalled, `Format` returns
the error and leaves the buffer as it was. -/
theorem Format_default_names_fields_caller_keys (std : GoMap JSON → JSON) (e : Entity)
    (full sf : Bool) (b : String) (pool : Pool) (pick : Nat) (hpool : PoolClean pool) :
    NewJSONFormatter [] full = (some (defaultNamed full true), none) ∧
    (((defaultNamed full sf).Format std e b pool pick).buffer,
      ((defaultNamed full sf).Format std e b pool pick).err) =
        Encode b ((defaultNamed full sf).emitted std e) ∧
    ("fields" ∈ ((defaultNamed full sf).emitted std e).keys ↔ (e.fields ≠ [] ∨ full = true)) ∧
    (e.fields = [] → full = true →
      ((defaultNamed full sf).emitted std e).members.lookup "fields" = some (JSON.object [])) ∧
    ("caller" ∈ ((defaultNamed full sf).emitted std e).keys ↔ (full = true ∨ e.caller ≠ "")) ∧
    (e.caller = "" → full = true →
      ((defaultNamed full sf).emitted std e).members.lookup "caller" = some (JSON.string "")) ∧
    (e.fields = [] →
      ((defaultNamed full sf).Format std e b pool pick).err = none ∧
      ((defaultNamed full sf).Format std e b pool pick).buffer =
        b ++ objectText (defaultTexts e full (if full = true then some "\x7b\x7d" else none)) ++
          "\n") ∧
    (∀ s, e.fields ≠ [] → (std e.fields).encode = .ok s →
      ((defaultNamed full sf).Format std e b pool pick).err = none ∧
      ((defaultNamed full sf).Format std e b pool pick).buffer =
        b ++ objectText (defaultTexts e full (some s)) ++ "\n") ∧
    (∀ msg, e.fields ≠ [] → (std e.fields).encode = .error msg →
      ((defaultNamed full sf).Format std e b pool pick).err = some msg ∧
      ((defaultNamed full sf).Format std e b pool pick).buffer = b) := by
  have hfmt := Format_of_clean_pool std (defaultNamed full sf) e b hpool pick
  refine ⟨NewJSONFormatter_nil full, hfmt, ?_, ?_, ?_, ?_, ?_, ?_, ?_⟩
  · rw [emitted_defaultNamed, JSON.keys, JSON.members, defaultMembers_keys,
      ← fields_length_pos_iff]
    by_cases hf : e.fields.length > 0 <;> by_cases hc : e.caller = "" <;> cases full <;>
      simp [hf, hc]
  · intro hf hfull
    subst hfull
    rw [emitted_defaultNamed, JSON.members]
    simp [defaultMembers, hf, List.lookup]
  · rw [emitted_defaultNamed, JSON.keys, JSON.members, defaultMembers_keys]
    by_cases hf : e.fields.length > 0 <;> by_cases hc : e.caller = "" <;> cases full <;>
      simp [hf, hc]
  · intro hc hfull
    subst hfull
    rw [emitted_defaultNamed, JSON.members]
    simp [defaultMembers, hc, List.lookup]
  · intro hf
    rw [emitted_defaultNamed,
      Encode_object_ok b _ _ (memberTexts_default_no_fields std e full hf)] at hfmt
    exact ⟨congrArg Prod.snd hfmt, congrArg Prod.fst hfmt⟩
  · intro s hf hs
    rw [emitted_defaultNamed,
      Encode_object_ok b _ _ (memberTexts_default_fields std e full s hf hs)] at hfmt
    exact ⟨congrArg Prod.snd hfmt, congrArg Prod.fst hfmt⟩
  · intro msg hf hs
    rw [emitted_defaultNamed, Encode_default_fields_error std e full b msg hf hs] at hfmt
    exact ⟨congrArg Prod.snd hfmt, congrArg Prod.fst hfmt⟩

theorem Format_default_names_fields_caller_keys_witness :
    PoolClean [newJSONFormatterObject] ∧ sampleEntity.fields = [] ∧
    ((defaultNamed true true).Format stdSample sampleEntity "" [newJSONFormatterObject] 0).err =
      none ∧
    ((defaultNamed true true).Format stdSample sampleEntity "" [newJSONFormatterObject]
      0).buffer =
      "" ++ objectText (defaultTexts sampleEntity true
        (if true = true then some "\x7b\x7d" else none)) ++ "\n" :=
  ⟨poolClean_cons rfl poolClean_nil, rfl,
   (Format_default_names_fields_caller_keys stdSample sampleEntity true true ""
      [newJSONFormatterObject] 0 (poolClean_cons rfl poolClean_nil)).2.2.2.2.2.2.1 rfl⟩

/-- C6, amended. For every entity with non-empty fields and no caller, the
default-key structural formatter with `full = false` hands the encoder one
object whose keys are, in this order, fields, level, message, name, time. When
the fields can be marshalled, to the text `s`, `Format` appends to the buffer
exactly that object, its members in that order, and a line break, and returns
no error; when the fields cannot be marshalled, `Format` returns the error and
leaves the buffer as it was. -/
theorem Format_default_shape_key_order (std : GoMap JSON → JSON) (e : Entity) (b : String)
    (pool : Pool) (pick : Nat) (hpool : PoolClean pool) (hfields : e.fields ≠ [])
    (hcaller : e.caller = "") :
    ((defaultNamed false true).emitted std e).keys =
      ["fields", "level", "message", "name", "time"] ∧
    (((defaultNamed false true).Format std e b pool pick).buffer,
      ((defaultNamed false true).Format std e b pool pick).err) =
        Encode b ((defaultNamed false true).emitted std e) ∧
    (∀ s, (std e.fields).encode = .ok s →
      ((defaultNamed false true).Format std e b pool pick).buffer =
        b ++ ("\x7b\"fields\":" ++ s ++ ",\"level\":" ++ encodeString e.level.String ++
          ",\"message\":" ++ encodeString e.message ++ ",\"name\":" ++ encodeString e.name ++
          ",\"time\":" ++ encodeString e.timeString ++ "\x7d") ++ "\n" ∧
      ((defaultNamed false true).Format std e b pool pick).err = none) ∧
    (∀ msg, (std e.fields).encode = .error msg →
      ((defaultNamed false true).Format std e b pool pick).buffer = b ∧
      ((defaultNamed false true).Format std e b pool pick).err = some msg) := by
  have hlen : e.fields.length > 0 := (fields_length_pos_iff e).2 hfields
  have hem : (defaultNamed false true).emitted std e =
      .object [("fields", std e.fields), ("level", .string e.level.String),
        ("message", .string e.message), ("name", .string e.name),
        ("time", .string e.timeString)] := by
    rw [emitted_defaultNamed]
    simp [defaultMembers, hlen, hcaller]
  have hfmt := Format_of_clean_pool std (defaultNamed false true) e b hpool pick
  refine ⟨?_, hfmt, ?_, ?_⟩
  · rw [hem]
    rfl
  · intro s hs
    rw [hem, Encode, encode_object_fields_core _ _ _ _ _ _ hs] at hfmt
    exact ⟨congrArg Prod.fst hfmt, congrArg Prod.snd hfmt⟩
  · intro msg hs
    rw [emitted_defaultNamed, Encode_default_fields_error std e false b msg hfields hs] at hfmt
    exact ⟨congrArg Prod.fst hfmt, congrArg Prod.snd hfmt⟩

theorem Format_default_shape_key_order_witness :
    PoolClean [] ∧ sampleEntityWithFields.fields ≠ [] ∧ sampleEntityWithFields.caller = "" ∧
    ((defaultNamed false true).emitted stdSample sampleEntityWithFields).keys =
      ["fields", "level", "message", "name", "time"] ∧
    ((defaultNamed false true).Format stdSample sampleEntityWithFields "" [] 0).buffer =
      "" ++ ("\x7b\"fields\":" ++ "\x7b\"k\":\"v\"\x7d" ++ ",\"level\":" ++
        encodeString sampleEntityWithFields.level.String ++ ",\"message\":" ++
        encodeString sampleEntityWithFields.message ++ ",\"name\":" ++
        encodeString sampleEntityWithFields.name ++ ",\"time\":" ++
        encodeString sampleEntityWithFields.timeString ++ "\x7d") ++ "\n" :=
  ⟨poolClean_nil, by simp [sampleEntityWithFields], rfl,
   (Format_default_shape_key_order stdSample sampleEntityWithFields "" [] 0 poolClean_nil
      (by simp [sampleEntityWithFields]) rfl).1,
   ((Format_default_shape_key_order stdSample sampleEntityWithFields "" [] 0 poolClean_nil
      (by simp [sampleEntityWithFields]) rfl).2.2.1 "\x7b\"k\":\"v\"\x7d" rfl).1⟩

theorem mem_keys_mapSet (m : GoMap JSON) (k : String) (v : JSON) (k2 : String) :
    k2 ∈ (mapSet m k v).map Prod.fst ↔ k2 = k ∨ k2 ∈ m.map Prod.fst := by
  induction m with
  | nil => simp [mapSet]
  | cons p m ih =>
    obtain ⟨k0, v0⟩ := p
    unfold mapSet
    by_cases h : k0 = k
    · subst h
      rw [if_pos rfl]
      simp only [List.map_cons, List.mem_cons]
      tauto
    · rw [if_neg h]
      simp only [List.map_cons, List.mem_cons, ih]
      tauto

theorem nodup_keys_mapSet (m : GoMap JSON) (k : String) (v : JSON)
    (hm : (m.map Prod.fst).Nodup) : ((mapSet m k v).map Prod.fst).Nodup := by
  induction m with
  | nil => simp [mapSet]
  | cons p m ih =>
    obtain ⟨k0, v0⟩ := p
    simp only [List.map_cons, List.nodup_cons] at hm
    unfold mapSet
    by_cases h : k0 = k
    · rw [if_pos h]
      simp only [List.map_cons, List.nodup_cons]
      exact hm
    · rw [if_neg h]
      simp only [List.map_cons, List.nodup_cons, mem_keys_mapSet]
      refine ⟨?_, ih hm.2⟩
      rintro (h1 | h1)
      · exact h h1
      · exact hm.1 h1

theorem insertMember_perm (p : String × JSON) (l : List (String × JSON)) :
    (insertMember p l).Perm (p :: l) := by
  induction l with
  | nil => exact List.Perm.refl _
  | cons q qs ih =>
    unfold insertMember
    by_cases h : keyLT q.1.data p.1.data = true
    · rw [if_pos h]
      exact (List.Perm.cons q ih).trans (List.Perm.swap p q qs)
    · rw [if_neg h]

theorem sortMembers_perm (l : List (String × JSON)) : (sortMembers l).Perm l := by
  induction l with
  | nil => exact List.Perm.refl _
  | cons p ps ih =>
    unfold sortMembers
    exact (insertMember_perm p (sortMembers ps)).trans (List.Perm.cons p ih)

theorem caller_emitted_iff (f : jsonFormatter) (e : Entity) :
    (f.full || e.caller != "") = true ↔ (f.full = true ∨ e.caller ≠ "") := by
  simp

theorem mem_keys_buildMap (std : GoMap JSON → JSON) (f : jsonFormatter) (e : Entity)
    (k : String) :
    k ∈ (buildMap std f e).map Prod.fst ↔
      (k = f.name ∨ k = f.time ∨ k = f.level ∨ k = f.message ∨
        ((e.fields ≠ [] ∨ f.full = true) ∧ k = f.fields) ∨
        ((f.full = true ∨ e.caller ≠ "") ∧ k = f.caller)) := by
  have hlen := fields_length_pos_iff e
  have hcal := caller_emitted_iff f e
  unfold buildMap
  dsimp only
  split_ifs with h1 h3 h2 h3 h3 <;>
    simp only [mem_keys_mapSet, List.map_nil, List.not_mem_nil, or_false] <;>
    tauto

theorem nodup_keys_buildMap (std : GoMap JSON → JSON) (f : jsonFormatter) (e : Entity) :
    ((buildMap std f e).map Prod.fst).Nodup := by
  have h4 : ((mapSet (mapSet (mapSet (mapSet ([] : GoMap JSON) f.name (.string e.name))
      f.time (.string e.timeString)) f.level (.string e.level.String))
      f.message (.string e.message)).map Prod.fst).Nodup :=
    nodup_keys_mapSet _ _ _ (nodup_keys_mapSet _ _ _ (nodup_keys_mapSet _ _ _
      (nodup_keys_mapSet _ _ _ List.nodup_nil)))
  unfold buildMap
  dsimp only
  split_ifs <;>
    first
      | exact h4
      | exact nodup_keys_mapSet _ _ _ h4
      | exact nodup_keys_mapSet _ _ _ (nodup_keys_mapSet _ _ _ h4)

theorem mem_buildMap_caller (std : GoMap JSON → JSON) (f : jsonFormatter) (e : Entity)
    (hc : f.full = true ∨ e.caller ≠ "") :
    (f.caller, JSON.string e.caller) ∈ buildMap std f e := by
  unfold buildMap
  dsimp only
  rw [if_pos ((caller_emitted_iff f e).2 hc)]
  exact mem_mapSet_self _ _ _

theorem mem_buildMap_of_mem_fields_step (std : GoMap JSON → JSON) (f : jsonFormatter)
    (e : Entity) (q : String × JSON)
    (hq : q ∈ (if e.fields.length > 0 then
        mapSet (mapSet (mapSet (mapSet (mapSet ([] : GoMap JSON) f.name (.string e.name))
          f.time (.string e.timeString)) f.level (.string e.level.String))
          f.message (.string e.message)) f.fields (std e.fields)
      else if f.full = true then
        mapSet (mapSet (mapSet (mapSet (mapSet ([] : GoMap JSON) f.name (.string e.name))
          f.time (.string e.timeString)) f.level (.string e.level.String))
          f.message (.string e.message)) f.fields (JSON.object [])
      else mapSet (mapSet (mapSet (mapSet ([] : GoMap JSON) f.name (.string e.name))
          f.time (.string e.timeString)) f.level (.string e.level.String))
          f.message (.string e.message)))
    (hcaller : (f.full = true ∨ e.caller ≠ "") → q.1 ≠ f.caller) :
    q ∈ buildMap std f e := by
  unfold buildMap
  dsimp only
  by_cases hc : (f.full || e.caller != "") = true
  · rw [if_pos hc]
    exact mem_mapSet_of_ne _ _ _ _ (hcaller ((caller_emitted_iff f e).1 hc)) hq
  · rw [if_neg hc]
    exact hq

theorem mem_buildMap_fields (std : GoMap JSON → JSON) (f : jsonFormatter) (e : Entity)
    (hcaller : (f.full = true ∨ e.caller ≠ "") → f.fields ≠ f.caller) :
    (e.fields ≠ [] → (f.fields, std e.fields) ∈ buildMap std f e) ∧
    (e.fields = [] → f.full = true → (f.fields, JSON.object []) ∈ buildMap std f e) := by
  constructor
  · intro hf
    refine mem_buildMap_of_mem_fields_step std f e _ ?_ hcaller
    rw [if_pos ((fields_length_pos_iff e).2 hf)]
    exact mem_mapSet_self _ _ _
  · intro hf hfull
    refine mem_buildMap_of_mem_fields_step std f e _ ?_ hcaller
    have hlen : ¬ e.fields.length > 0 := fun h => (fields_length_pos_iff e).1 h hf
    rw [if_neg hlen, if_pos hfull]
    exact mem_mapSet_self _ _ _

theorem emitted_is_object (std : GoMap JSON → JSON) (f : jsonFormatter) (e : Entity) :
    f.emitted std e = .object (f.emitted std e).members := by
  unfold jsonFormatter.emitted
  split_ifs <;> rfl

theorem Format_bytes_of_members (std : GoMap JSON → JSON) (f : jsonFormatter) (e : Entity)
    (b : String) {pool : Pool} (hpool : PoolClean pool) (pick : Nat) :
    (∀ ts, MemberTexts (f.emitted std e).members ts →
      (f.Format std e b pool pick).err = none ∧
      (f.Format std e b pool pick).buffer = b ++ objectText ts ++ "\n") ∧
    ((∀ ts, ¬ MemberTexts (f.emitted std e).members ts) →
      (f.Format std e b pool pick).buffer = b ∧
      ∃ msg, (f.Format std e b pool pick).err = some msg) := by
  have hfmt := Format_of_clean_pool std f e b hpool pick
  rw [emitted_is_object] at hfmt
  constructor
  · intro ts hts
    rw [Encode_object_ok b _ ts hts] at hfmt
    exact ⟨congrArg Prod.snd hfmt, congrArg Prod.fst hfmt⟩
  · intro hno
    obtain ⟨msg, hmsg⟩ := Encode_object_error b _ hno
    rw [hmsg] at hfmt
    exact ⟨congrArg Prod.fst hfmt, msg, congrArg Prod.snd hfmt⟩

theorem defaultMembers_spec (std : GoMap JSON → JSON) (e : Entity) (full : Bool) :
    ((defaultMembers std e full).map Prod.fst).Nodup ∧
    (∀ k, k ∈ (defaultMembers std e full).map Prod.fst ↔
      (k = "name" ∨ k = "time" ∨ k = "level" ∨ k = "message" ∨
        ((e.fields ≠ [] ∨ full = true) ∧ k = "fields") ∨
        ((full = true ∨ e.caller ≠ "") ∧ k = "caller"))) ∧
    (e.fields ≠ [] → ("fields", std e.fields) ∈ defaultMembers std e full) ∧
    (e.fields = [] → full = true → ("fields", JSON.object []) ∈ defaultMembers std e full) ∧
    ((full = true ∨ e.caller ≠ "") → ("caller", JSON.string e.caller) ∈
      defaultMembers std e full) := by
  have hlen := fields_length_pos_iff e
  refine ⟨?_, ?_, ?_, ?_, ?_⟩
  · rw [defaultMembers_keys]
    by_cases hf : e.fields.length > 0 <;> by_cases hc : e.caller = "" <;> cases full <;>
      simp +decide [hf, hc]
  · intro k
    rw [defaultMembers_keys, ← hlen]
    by_cases hf : e.fields.length > 0 <;> by_cases hc : e.caller = "" <;> cases full <;>
      simp [hf, hc] <;> tauto
  · intro hf
    simp [defaultMembers, hlen.2 hf]
  · intro hf hfull
    simp [defaultMembers, hf, hfull]
  · intro hc
    rcases hc with hc | hc
    · simp [defaultMembers, hc]
    · simp [defaultMembers, hc]

/-- C5, amended. For a formatter that `NewJSONFormatter` built from a key map,
the six output keys are the names the map asks for (the non-empty supplied
name, otherwise the default), and `Format` hands the encoder one object with no
key twice, whose keys are the output keys of name, time, level, message, of
fields when it is emitted and of caller when it is emitted. In it the entity's
name, time string, level string and message each stand under their output key,
provided that key is not the output key of another of these four, nor of
fields when emitted, nor of caller when emitted; the caller, when emitted,
stands under the caller key; the fields, when emitted, stand under the fields
key unless the caller is emitted under the same key. When every value of the
object can be marshalled, `Format` returns no error and appends exactly the
text of that object and a line break; otherwise it returns an error and leaves
the buffer as it was. -/
theorem Format_contains_core_fields_unless_overwritten (keys : GoMap String) (full : Bool)
    (f : jsonFormatter) (std : GoMap JSON → JSON) (e : Entity) (b : String) (pool : Pool)
    (pick : Nat) (hnd : (keys.map Prod.fst).Nodup)
    (hok : NewJSONFormatter keys full = (some f, none)) (hpool : PoolClean pool) :
    ((f.Format std e b pool pick).buffer, (f.Format std e b pool pick).err) =
      Encode b (f.emitted std e) ∧
    (f.name = outputName keys "name" ∧ f.time = outputName keys "time" ∧
      f.level = outputName keys "level" ∧ f.message = outputName keys "message" ∧
      f.fields = outputName keys "fields" ∧ f.caller = outputName keys "caller") ∧
    f.emitted std e = .object (f.emitted std e).members ∧
    ((f.emitted std e).members.map Prod.fst).Nodup ∧
    (∀ k, k ∈ (f.emitted std e).members.map Prod.fst ↔
      (k = f.name ∨ k = f.time ∨ k = f.level ∨ k = f.message ∨
        ((e.fields ≠ [] ∨ full = true) ∧ k = f.fields) ∨
        ((full = true ∨ e.caller ≠ "") ∧ k = f.caller))) ∧
    (f.name ≠ f.time → f.name ≠ f.level → f.name ≠ f.message →
      ((e.fields ≠ [] ∨ full = true) → f.name ≠ f.fields) →
      ((full = true ∨ e.caller ≠ "") → f.name ≠ f.caller) →
      (f.name, JSON.string e.name) ∈ (f.emitted std e).members) ∧
    (f.time ≠ f.name → f.time ≠ f.level → f.time ≠ f.message →
      ((e.fields ≠ [] ∨ full = true) → f.time ≠ f.fields) →
      ((full = true ∨ e.caller ≠ "") → f.time ≠ f.caller) →
      (f.time, JSON.string e.timeString) ∈ (f.emitted std e).members) ∧
    (f.level ≠ f.name → f.level ≠ f.time → f.level ≠ f.message →
      ((e.fields ≠ [] ∨ full = true) → f.level ≠ f.fields) →
      ((full = true ∨ e.caller ≠ "") → f.level ≠ f.caller) →
      (f.level, JSON.string e.level.String) ∈ (f.emitted std e).members) ∧
    (f.message ≠ f.name → f.message ≠ f.time → f.message ≠ f.level →
      ((e.fields ≠ [] ∨ full = true) → f.message ≠ f.fields) →
      ((full = true ∨ e.caller ≠ "") → f.message ≠ f.caller) →
      (f.message, JSON.string e.message) ∈ (f.emitted std e).members) ∧
    (e.fields ≠ [] → ((full = true ∨ e.caller ≠ "") → f.fields ≠ f.caller) →
      (f.fields, std e.fields) ∈ (f.emitted std e).members) ∧
    (e.fields = [] → full = true → f.fields ≠ f.caller →
      (f.fields, JSON.object []) ∈ (f.emitted std e).members) ∧
    ((full = true ∨ e.caller ≠ "") →
      (f.caller, JSON.string e.caller) ∈ (f.emitted std e).members) ∧
    (∀ ts, MemberTexts (f.emitted std e).members ts →
      (f.Format std e b pool pick).err = none ∧
      (f.Format std e b pool pick).buffer = b ++ objectText ts ++ "\n") ∧
    ((∀ ts, ¬ MemberTexts (f.emitted std e).members ts) →
      (f.Format std e b pool pick).buffer = b ∧
      ∃ msg, (f.Format std e b pool pick).err = some msg) := by
  obtain ⟨_, hn, ht, hl, hm, hfi, hca, hfull, _⟩ := NewJSONFormatter_ok_spec keys full f hnd hok
  obtain ⟨hbytes1, hbytes2⟩ := Format_bytes_of_members std f e b hpool pick
  refine ⟨Format_of_clean_pool std f e b hpool pick, ⟨hn, ht, hl, hm, hfi, hca⟩,
    emitted_is_object std f e, ?_⟩
  suffices hmain :
      ((f.emitted std e).members.map Prod.fst).Nodup ∧
      (∀ k, k ∈ (f.emitted std e).members.map Prod.fst ↔
        (k = f.name ∨ k = f.time ∨ k = f.level ∨ k = f.message ∨
          ((e.fields ≠ [] ∨ full = true) ∧ k = f.fields) ∨
          ((full = true ∨ e.caller ≠ "") ∧ k = f.caller))) ∧
      (f.name ≠ f.time → f.name ≠ f.level → f.name ≠ f.message →
        ((e.fields ≠ [] ∨ full = true) → f.name ≠ f.fields) →
        ((full = true ∨ e.caller ≠ "") → f.name ≠ f.caller) →
        (f.name, JSON.string e.name) ∈ (f.emitted std e).members) ∧
      (f.time ≠ f.name → f.time ≠ f.level → f.time ≠ f.message →
        ((e.fields ≠ [] ∨ full = true) → f.time ≠ f.fields) →
        ((full = true ∨ e.caller ≠ "") → f.time ≠ f.caller) →
        (f.time, JSON.string e.timeString) ∈ (f.emitted std e).members) ∧
      (f.level ≠ f.name → f.level ≠ f.time → f.level ≠ f.message →
        ((e.fields ≠ [] ∨ full = true) → f.level ≠ f.fields) →
        ((full = true ∨ e.caller ≠ "") → f.level ≠ f.caller) →
        (f.level, JSON.string e.level.String) ∈ (f.emitted std e).members) ∧
      (f.message ≠ f.name → f.message ≠ f.time → f.message ≠ f.level →
        ((e.fields ≠ [] ∨ full = true) → f.message ≠ f.fields) →
        ((full = true ∨ e.caller ≠ "") → f.message ≠ f.caller) →
        (f.message, JSON.string e.message) ∈ (f.emitted std e).members) ∧
      (e.fields ≠ [] → ((full = true ∨ e.caller ≠ "") → f.fields ≠ f.caller) →
        (f.fields, std e.fields) ∈ (f.emitted std e).members) ∧
      (e.fields = [] → full = true → f.fields ≠ f.caller →
        (f.fields, JSON.object []) ∈ (f.emitted std e).members) ∧
      ((full = true ∨ e.caller ≠ "") →
        (f.caller, JSON.string e.caller) ∈ (f.emitted std e).members) by
    obtain ⟨c1, c2, c3, c4, c5, c6, c7, c8, c9⟩ := hmain
    exact ⟨c1, c2, c3, c4, c5, c6, c7, c8, c9, hbytes1, hbytes2⟩
  cases hs : f.structureFlag
  · -- the map path
    have hem : (f.emitted std e).members = sortMembers (buildMap std f e) := by
      simp [jsonFormatter.emitted, hs, mapToJSON, JSON.members]
    have hperm := sortMembers_perm (buildMap std f e)
    rw [hem]
    simp only [mem_sortMembers]
    subst hfull
    refine ⟨?_, ?_, ?_, ?_, ?_, ?_, ?_, ?_, ?_⟩
    · exact (hperm.map Prod.fst).nodup_iff.2 (nodup_keys_buildMap std f e)
    · intro k
      rw [(hperm.map Prod.fst).mem_iff]
      exact mem_keys_buildMap std f e k
    · intro h1 h2 h3 h4 h5
      refine mem_buildMap_of_mem_literal std f e _ ?_ h4 h5
      exact mem_mapSet_of_ne _ _ _ _ h3 (mem_mapSet_of_ne _ _ _ _ h2
        (mem_mapSet_of_ne _ _ _ _ h1 (mem_mapSet_self _ _ _)))
    · intro _ h2 h3 h4 h5
      refine mem_buildMap_of_mem_literal std f e _ ?_ h4 h5
      exact mem_mapSet_of_ne _ _ _ _ h3 (mem_mapSet_of_ne _ _ _ _ h2 (mem_mapSet_self _ _ _))
    · intro _ _ h3 h4 h5
      refine mem_buildMap_of_mem_literal std f e _ ?_ h4 h5
      exact mem_mapSet_of_ne _ _ _ _ h3 (mem_mapSet_self _ _ _)
    · intro _ _ _ h4 h5
      exact mem_buildMap_of_mem_literal std f e _ (mem_mapSet_self _ _ _) h4 h5
    · intro hf hc
      exact (mem_buildMap_fields std f e hc).1 hf
    · intro hf hfl hc
      exact (mem_buildMap_fields std f e (fun _ => hc)).2 hf hfl
    · intro hc
      exact mem_buildMap_caller std f e hc
  · -- the structure path: the names are the defaults
    have hdef := NewJSONFormatter_structure_default keys full f hok hs
    subst hdef
    rw [emitted_defaultNamed]
    obtain ⟨m1, m2, m3, m4⟩ := mem_defaultMembers std e full
    obtain ⟨d1, d2, d3, d4, d5⟩ := defaultMembers_spec std e full
    exact ⟨d1, d2, fun _ _ _ _ _ => m1, fun _ _ _ _ _ => m2, fun _ _ _ _ _ => m3,
      fun _ _ _ _ _ => m4, fun hf _ => d3 hf, fun hf hfl _ => d4 hf hfl, d5⟩

theorem Format_contains_core_fields_unless_overwritten_witness :
    ([("name", "n"), ("fields", "caller")].map Prod.fst).Nodup ∧
    NewJSONFormatter [("name", "n"), ("fields", "caller")] true =
      (some ⟨"n", "time", "level", "message", "caller", "caller", true, false⟩, none) ∧
    PoolClean [] ∧
    (("n", JSON.string "test") ∈
      ((⟨"n", "time", "level", "message", "caller", "caller", true, false⟩ :
        jsonFormatter).emitted stdSample sampleEntityWithFields).members) ∧
    (("caller", JSON.string "") ∈
      ((⟨"n", "time", "level", "message", "caller", "caller", true, false⟩ :
        jsonFormatter).emitted stdSample sampleEntityWithFields).members) ∧
    ((⟨"n", "time", "level", "message", "caller", "caller", true, false⟩ :
        jsonFormatter).Format stdSample sampleEntityWithFields "" [] 0).buffer =
      "" ++ objectText [memberText "caller" (encodeString ""),
        memberText "level" (encodeString "info"), memberText "message" (encodeString "foo"),
        memberText "n" (encodeString "test"),
        memberText "time" (encodeString "2021-03-04T05:06:07Z")] ++ "\n" :=
  ⟨by decide, by decide, poolClean_nil,
   (Format_contains_core_fields_unless_overwritten [("name", "n"), ("fields", "caller")] true
      ⟨"n", "time", "level", "message", "caller", "caller", true, false⟩ stdSample
      sampleEntityWithFields "" [] 0 (by decide) (by decide) poolClean_nil).2.2.2.2.2.1
      (by decide) (by decide) (by decide) (fun _ => by decide) (fun _ => by decide),
   (Format_contains_core_fields_unless_overwritten [("name", "n"), ("fields", "caller")] true
      ⟨"n", "time", "level", "message", "caller", "caller", true, false⟩ stdSample
      sampleEntityWithFields "" [] 0 (by decide) (by decide) poolClean_nil).2.2.2.2.2.2.2.2.2.2.2.1
      (Or.inl rfl),
   ((Format_contains_core_fields_unless_overwritten [("name", "n"), ("fields", "caller")] true
      ⟨"n", "time", "level", "message", "caller", "caller", true, false⟩ stdSample
      sampleEntityWithFields "" [] 0 (by decide) (by decide) poolClean_nil).2.2.2.2.2.2.2.2.2.2.2.2.1
      _ (List.Forall₂.cons ⟨_, rfl, rfl⟩ (List.Forall₂.cons ⟨_, rfl, rfl⟩
        (List.Forall₂.cons ⟨_, rfl, rfl⟩ (List.Forall₂.cons ⟨_, rfl, rfl⟩
          (List.Forall₂.cons ⟨_, rfl, rfl⟩ List.Forall₂.nil)))))).2⟩

end ZkitsLogger
